import Mathlib

/-!
# Verification of the `ConSavModel` two-period consumption-saving solver

Shallow embedding of `modelproject/utils.py` (class `ConSavModel`).  Python
floats are modelled as real numbers; the SciPy bounded scalar minimizer and
the scalar root-finder are black-box dependencies of the code and are
modelled as explicit function parameters (`Minimizer`, `RootFinder`); the
per-grid-point random draw of the stochastic variant is modelled as an
explicit stream `draws : ℕ → ℝ`; Python `None` parameters are modelled with
`Option ℝ`, and code that raises on a `None` parameter is modelled as
returning `none`.
-/

open Real Set

noncomputable section

/-- The parameter bundle of `ConSavModel.__init__`.  `gamma`, `delta`,
`kappa`, `sigma_low`, `sigma_high` default to Python `None`, hence
`Option ℝ`. -/
structure ConSavModel where
  r : ℝ
  beta : ℝ
  rho : ℝ
  gamma : Option ℝ
  delta : Option ℝ
  kappa : Option ℝ
  sigma_low : Option ℝ
  sigma_high : Option ℝ
  p : ℝ

/-- The model produced by `ConSavModel()` with all defaulted arguments:
`r=0.05, beta=0.95, rho=5, gamma=None, delta=None, kappa=None,
sigma_low=None, sigma_high=None, p=0.5`. -/
def defaultModel : ConSavModel :=
  ⟨0.05, 0.95, 5, none, none, none, none, none, 0.5⟩

/-- The literal `1e-8` used by the code as the strictly positive near-zero
lower bound of every wealth grid and of every optimizer bound pair. -/
def lowBound : ℝ := 1e-8

/-- `np.linspace(a, b, n)`: `n` points `a + i*(b-a)/(n-1)`, `i = 0..n-1`. -/
def linspace (a b : ℝ) (n : ℕ) : List ℝ :=
  (List.range n).map (fun (i : ℕ) => a + (i : ℝ) * ((b - a) / ((n : ℝ) - 1)))

/-- Abstract interface of `scipy.optimize.minimize_scalar(·, method='bounded',
bounds=(lo, hi))`: from an objective and the two bounds it returns the
reported minimizer `x`; `result.fun` is then the objective at `x`. -/
abbrev Minimizer : Type := (ℝ → ℝ) → ℝ → ℝ → ℝ

/-- Abstract interface of `scipy.optimize.root_scalar(·, x0=guess,
method='newton')`: from an objective and the initial guess it returns the
reported root. -/
abbrev RootFinder : Type := (ℝ → ℝ) → ℝ → ℝ

/-- `ConSavModel.utility_crra`: `c**(1-rho)/(1-rho)`. -/
def utility_crra (M : ConSavModel) (c : ℝ) : ℝ :=
  c ^ (1 - M.rho) / (1 - M.rho)

/-- The objective closure of `ConSavModel.solve_cons_crra`:
`c1 - ((1+r)*m1)/((beta*(1+r))**(1/rho)+1+r)`. -/
def euler_obj (M : ConSavModel) (m1 c1 : ℝ) : ℝ :=
  c1 - (1 + M.r) * m1 / ((M.beta * (1 + M.r)) ^ (1 / M.rho) + 1 + M.r)

/-- `ConSavModel.solve_cons_crra`: root of `euler_obj` from guess `m1/2`,
then `c2* = (1+r)*(m1-c1*)`.  Reads only `r`, `beta`, `rho`. -/
def solve_cons_crra (M : ConSavModel) (rootfind : RootFinder) (m1 : ℝ) :
    ℝ × ℝ :=
  let c1_star := rootfind (euler_obj M m1) (m1 / 2)
  let c2_star := (1 + M.r) * (m1 - c1_star)
  (c1_star, c2_star)

/-- The value of `ConSavModel.v2_func` once `gamma = γ` and `kappa = κ`
are populated: `cons + beq` with `cons = c2**(1-rho)/(1-rho)` and
`beq = gamma*(m2-c2+kappa)**(1-rho)/(1-rho)`. -/
def v2_val (M : ConSavModel) (γ κ c2 m2 : ℝ) : ℝ :=
  c2 ^ (1 - M.rho) / (1 - M.rho) + γ * (m2 - c2 + κ) ^ (1 - M.rho) / (1 - M.rho)

/-- `ConSavModel.v2_func`; with `gamma` or `kappa` still `None` the Python
body raises a `TypeError`, modelled by `none`. -/
def v2_func (M : ConSavModel) (c2 m2 : ℝ) : Option ℝ :=
  match M.gamma, M.kappa with
  | some γ, some κ => some (v2_val M γ κ c2 m2)
  | _, _ => none

/-- `ConSavModel.solve_period_2`: for each `m2` in `np.linspace(1e-8,5,500)`
minimize `obj = -v2_func(c2, m2)` over bounds `(1e-8, m2)` and record
`v2_grid[i] = -result.fun` and `c2_grid[i] = result.x`.  The body evaluates
`v2_func`, so it fails (raises, modelled `none`) unless `gamma` and `kappa`
are populated. -/
def solve_period_2 (M : ConSavModel) (opt : Minimizer) :
    Option (List ℝ × List ℝ × List ℝ) :=
  match M.gamma, M.kappa with
  | some γ, some κ =>
    let m2_grid := linspace lowBound 5 500
    let res := m2_grid.map (fun m2 =>
      let x := opt (fun c2 => -(v2_val M γ κ c2 m2)) lowBound m2
      (v2_val M γ κ x m2, x))
    some (m2_grid, res.map Prod.fst, res.map Prod.snd)
  | _, _ => none

/-- One linear piece: the line through `(g0, w0)` and `(g1, w1)`. -/
def segLine (g0 w0 g1 w1 x : ℝ) : ℝ :=
  w0 + (x - g0) * ((w1 - w0) / (g1 - g0))

/-- 1-D `RegularGridInterpolator(..., bounds_error=False, fill_value=None)`
with method `linear`: locate the segment whose right node is the first node
`≥ x` (first segment for queries below the grid, last segment for queries
above it, hence linear extrapolation on both sides) and evaluate its line. -/
def interpPts (g0 w0 g1 w1 : ℝ) : List (ℝ × ℝ) → ℝ → ℝ
  | [], x => segLine g0 w0 g1 w1 x
  | (g2, w2) :: rest, x =>
    if x ≤ g1 then segLine g0 w0 g1 w1 x else interpPts g1 w1 g2 w2 rest x

/-- `ConSavModel.interp`: build the linear interpolator/extrapolator from a
wealth grid and a value grid.  (SciPy rejects grids of fewer than two
points at construction; that branch returns a junk constant and is never
reached by the solvers, whose grids have 500 points.) -/
def interp (m_grid v_grid : List ℝ) : ℝ → ℝ :=
  match m_grid, v_grid with
  | g0 :: g1 :: gs, w0 :: w1 :: ws => interpPts g0 w0 g1 w1 (gs.zip ws)
  | _, _ => fun _ => 0

/-- The value of `ConSavModel.v1_func` once `delta = δ` is populated:
`utility_crra(c1) + beta*(p * v2interp((1+r)(m1-c1)+(1+delta))
+ (1-p) * v2interp((1+r)(m1-c1)+(1-delta)))`. -/
def v1_core (M : ConSavModel) (δ c1 m1 : ℝ) (W : ℝ → ℝ) : ℝ :=
  utility_crra M c1 +
    M.beta * (M.p * W ((1 + M.r) * (m1 - c1) + (1 + δ)) +
      (1 - M.p) * W ((1 + M.r) * (m1 - c1) + (1 - δ)))

/-- `ConSavModel.v1_func` (deterministic-risk period-1 value): with `delta`
still `None` the Python body raises, modelled by `none`. -/
def v1_func (M : ConSavModel) (c1 m1 : ℝ) (W : ℝ → ℝ) : Option ℝ :=
  match M.delta with
  | some δ => some (v1_core M δ c1 m1 W)
  | none => none

/-- `ConSavModel.v1_func_no_risk`: `y2 = 1`,
`utility_crra(c1) + beta * v2interp((1+r)(m1-c1)+1)`. -/
def v1_func_no_risk (M : ConSavModel) (c1 m1 : ℝ) (W : ℝ → ℝ) : ℝ :=
  utility_crra M c1 + M.beta * W ((1 + M.r) * (m1 - c1) + 1)

/-- `ConSavModel.v1_func_stoch`:
`utility_crra(c1) + beta*(p * v2interp((1+r)(m1-c1)(1+sigma))
+ (1-p) * v2interp((1+r)(m1-c1)(1-sigma)))`. -/
def v1_func_stoch (M : ConSavModel) (c1 m1 σ : ℝ) (W : ℝ → ℝ) : ℝ :=
  utility_crra M c1 +
    M.beta * (M.p * W ((1 + M.r) * (m1 - c1) * (1 + σ)) +
      (1 - M.p) * W ((1 + M.r) * (m1 - c1) * (1 - σ)))

/-- `ConSavModel.solve_period_1` (deterministic-risk entry): for each `m1`
in `np.linspace(1e-8,4,100)` minimize `-v1(c1, m1, v2_interp_func)` over
bounds `(1e-8, m1)`. -/
def solve_period_1 (opt : Minimizer) (W : ℝ → ℝ)
    (v1 : ℝ → ℝ → (ℝ → ℝ) → ℝ) : List ℝ × List ℝ × List ℝ :=
  let m1_grid := linspace lowBound 4 100
  let res := m1_grid.map (fun m1 =>
    let x := opt (fun c1 => -(v1 c1 m1 W)) lowBound m1
    (v1 x m1 W, x))
  (m1_grid, res.map Prod.fst, res.map Prod.snd)

/-- `ConSavModel.solve_period_1_no_risk`: same per-point problem over
`np.linspace(1e-8,4,300)`. -/
def solve_period_1_no_risk (opt : Minimizer) (W : ℝ → ℝ)
    (v1 : ℝ → ℝ → (ℝ → ℝ) → ℝ) : List ℝ × List ℝ × List ℝ :=
  let m1_grid := linspace lowBound 4 300
  let res := m1_grid.map (fun m1 =>
    let x := opt (fun c1 => -(v1 c1 m1 W)) lowBound m1
    (v1 x m1 W, x))
  (m1_grid, res.map Prod.fst, res.map Prod.snd)

/-- The loop of `ConSavModel.solve_period_1_stoch` once every per-iteration
draw succeeds: over `np.linspace(1e-8,5,300)`, the `i`-th loop iteration
draws `sigma = np.random.uniform(sigma_low, sigma_high)` afresh — modelled
as consuming `draws i` — and then minimizes
`-v1(c1, m1, sigma, v2_interp_func)` over bounds `(1e-8, m1)`. -/
def solve_period_1_stoch_body (opt : Minimizer) (W : ℝ → ℝ)
    (v1 : ℝ → ℝ → ℝ → (ℝ → ℝ) → ℝ) (draws : ℕ → ℝ) :
    List ℝ × List ℝ × List ℝ :=
  let m1_grid := linspace lowBound 5 300
  let res := (List.range 300).map (fun (i : ℕ) =>
    let m1 := lowBound + (i : ℝ) * ((5 - lowBound) / 299)
    let σ := draws i
    let x := opt (fun c1 => -(v1 c1 m1 σ W)) lowBound m1
    (v1 x m1 σ W, x))
  (m1_grid, res.map Prod.fst, res.map Prod.snd)

/-- `ConSavModel.solve_period_1_stoch`: the very first loop iteration calls
`np.random.uniform(self.sigma_low, self.sigma_high)`, which raises
`TypeError` when either field is still `None` — modelled by `none`; with
both fields populated the loop runs to completion. -/
def solve_period_1_stoch (M : ConSavModel) (opt : Minimizer) (W : ℝ → ℝ)
    (v1 : ℝ → ℝ → ℝ → (ℝ → ℝ) → ℝ) (draws : ℕ → ℝ) :
    Option (List ℝ × List ℝ × List ℝ) :=
  match M.sigma_low, M.sigma_high with
  | some _, some _ => some (solve_period_1_stoch_body opt W v1 draws)
  | _, _ => none

/-- `ConSavModel.solvez`: period 2, then interpolator, then the
deterministic-risk period-1 solve; returns `(m1, c1, m2, c2)`. -/
def solvez (M : ConSavModel) (opt : Minimizer)
    (v1 : ℝ → ℝ → (ℝ → ℝ) → ℝ) :
    Option (List ℝ × List ℝ × List ℝ × List ℝ) :=
  match solve_period_2 M opt with
  | none => none
  | some (m2_grid, v2_grid, c2_grid) =>
    let W := interp m2_grid v2_grid
    let r1 := solve_period_1 opt W v1
    some (r1.1, r1.2.2, m2_grid, c2_grid)

/-- `ConSavModel.solvez_no_risk`. -/
def solvez_no_risk (M : ConSavModel) (opt : Minimizer)
    (v1 : ℝ → ℝ → (ℝ → ℝ) → ℝ) :
    Option (List ℝ × List ℝ × List ℝ × List ℝ) :=
  match solve_period_2 M opt with
  | none => none
  | some (m2_grid, v2_grid, c2_grid) =>
    let W := interp m2_grid v2_grid
    let r1 := solve_period_1_no_risk opt W v1
    some (r1.1, r1.2.2, m2_grid, c2_grid)

/-- `ConSavModel.solvez_stoch`: period 2, then the interpolator, then the
stochastic period-1 solve, which itself faults when the sigma fields are
still `None`. -/
def solvez_stoch (M : ConSavModel) (opt : Minimizer)
    (v1 : ℝ → ℝ → ℝ → (ℝ → ℝ) → ℝ) (draws : ℕ → ℝ) :
    Option (List ℝ × List ℝ × List ℝ × List ℝ) :=
  match solve_period_2 M opt with
  | none => none
  | some (m2_grid, v2_grid, c2_grid) =>
    let W := interp m2_grid v2_grid
    match solve_period_1_stoch M opt W v1 draws with
    | none => none
    | some r1 => some (r1.1, r1.2.2, m2_grid, c2_grid)

/-! ## Grid lemmas -/

theorem linspace_length (a b : ℝ) (n : ℕ) : (linspace a b n).length = n := by
  simp [linspace]

theorem linspace_getD (a b : ℝ) (n i : ℕ) (hi : i < n) :
    (linspace a b n).getD i 0 = a + (i : ℝ) * ((b - a) / ((n : ℝ) - 1)) := by
  rw [linspace, List.getD_eq_getElem?_getD]
  rw [List.getElem?_map, List.getElem?_range hi]
  rfl

theorem map_getD (f : ℝ → ℝ) (l : List ℝ) (i : ℕ) (hi : i < l.length) :
    (l.map f).getD i 0 = f (l.getD i 0) := by
  rw [List.getD_eq_getElem?_getD, List.getD_eq_getElem?_getD, List.getElem?_map]
  rw [List.getElem?_eq_getElem hi]
  rfl

/-- Closed form of `solve_period_2` once `gamma` and `kappa` are populated. -/
theorem solve_period_2_eq (M : ConSavModel) (γ κ : ℝ) (hγ : M.gamma = some γ)
    (hκ : M.kappa = some κ) (opt : Minimizer) :
    solve_period_2 M opt = some (linspace lowBound 5 500,
      (linspace lowBound 5 500).map (fun m2 =>
        v2_val M γ κ (opt (fun c2 => -(v2_val M γ κ c2 m2)) lowBound m2) m2),
      (linspace lowBound 5 500).map (fun m2 =>
        opt (fun c2 => -(v2_val M γ κ c2 m2)) lowBound m2)) := by
  simp only [solve_period_2, hγ, hκ, List.map_map]
  rfl

/-- Closed form of `solve_period_1`. -/
theorem solve_period_1_eq (opt : Minimizer) (W : ℝ → ℝ)
    (v1 : ℝ → ℝ → (ℝ → ℝ) → ℝ) :
    solve_period_1 opt W v1 = (linspace lowBound 4 100,
      (linspace lowBound 4 100).map (fun m1 =>
        v1 (opt (fun c1 => -(v1 c1 m1 W)) lowBound m1) m1 W),
      (linspace lowBound 4 100).map (fun m1 =>
        opt (fun c1 => -(v1 c1 m1 W)) lowBound m1)) := by
  simp only [solve_period_1, List.map_map]
  rfl

/-- Closed form of `solve_period_1_no_risk`. -/
theorem solve_period_1_no_risk_eq (opt : Minimizer) (W : ℝ → ℝ)
    (v1 : ℝ → ℝ → (ℝ → ℝ) → ℝ) :
    solve_period_1_no_risk opt W v1 = (linspace lowBound 4 300,
      (linspace lowBound 4 300).map (fun m1 =>
        v1 (opt (fun c1 => -(v1 c1 m1 W)) lowBound m1) m1 W),
      (linspace lowBound 4 300).map (fun m1 =>
        opt (fun c1 => -(v1 c1 m1 W)) lowBound m1)) := by
  simp only [solve_period_1_no_risk, List.map_map]
  rfl

/-- Closed form of the stochastic period-1 loop: the `i`-th point consumes
the `i`-th draw. -/
theorem solve_period_1_stoch_eq (opt : Minimizer) (W : ℝ → ℝ)
    (v1 : ℝ → ℝ → ℝ → (ℝ → ℝ) → ℝ) (draws : ℕ → ℝ) :
    solve_period_1_stoch_body opt W v1 draws = (linspace lowBound 5 300,
      (List.range 300).map (fun (i : ℕ) =>
        v1 (opt (fun c1 => -(v1 c1 (lowBound + (i : ℝ) * ((5 - lowBound) / 299))
            (draws i) W)) lowBound (lowBound + (i : ℝ) * ((5 - lowBound) / 299)))
          (lowBound + (i : ℝ) * ((5 - lowBound) / 299)) (draws i) W),
      (List.range 300).map (fun (i : ℕ) =>
        opt (fun c1 => -(v1 c1 (lowBound + (i : ℝ) * ((5 - lowBound) / 299))
          (draws i) W)) lowBound (lowBound + (i : ℝ) * ((5 - lowBound) / 299)))) := by
  simp only [solve_period_1_stoch_body, List.map_map]
  rfl

/-- With both sigma fields populated, `solve_period_1_stoch` returns the
completed loop. -/
theorem solve_period_1_stoch_some (M : ConSavModel) (slo shi : ℝ)
    (hlo : M.sigma_low = some slo) (hhi : M.sigma_high = some shi)
    (opt : Minimizer) (W : ℝ → ℝ) (v1 : ℝ → ℝ → ℝ → (ℝ → ℝ) → ℝ)
    (draws : ℕ → ℝ) :
    solve_period_1_stoch M opt W v1 draws =
      some (solve_period_1_stoch_body opt W v1 draws) := by
  simp only [solve_period_1_stoch, hlo, hhi]

/-- With either sigma field `None`, `solve_period_1_stoch` faults at its
first iteration. -/
theorem solve_period_1_stoch_fault (M : ConSavModel)
    (h : M.sigma_low = none ∨ M.sigma_high = none)
    (opt : Minimizer) (W : ℝ → ℝ) (v1 : ℝ → ℝ → ℝ → (ℝ → ℝ) → ℝ)
    (draws : ℕ → ℝ) :
    solve_period_1_stoch M opt W v1 draws = none := by
  unfold solve_period_1_stoch
  rcases h with h | h
  · rw [h]
  · rw [h]
    cases M.sigma_low <;> rfl

/-- With either sigma field `None`, `solvez_stoch` returns nothing. -/
theorem solvez_stoch_fault (M : ConSavModel)
    (h : M.sigma_low = none ∨ M.sigma_high = none)
    (opt : Minimizer) (v1 : ℝ → ℝ → ℝ → (ℝ → ℝ) → ℝ) (draws : ℕ → ℝ) :
    solvez_stoch M opt v1 draws = none := by
  unfold solvez_stoch
  cases hsp2 : solve_period_2 M opt with
  | none => rfl
  | some t =>
    obtain ⟨m2g, v2g, c2g⟩ := t
    simp only [solve_period_1_stoch_fault M h]

theorem range_map_getD (f : ℕ → ℝ) (n i : ℕ) (hi : i < n) :
    (((List.range n).map f).getD i 0) = f i := by
  rw [List.getD_eq_getElem?_getD, List.getElem?_map, List.getElem?_range hi]
  rfl

/-- The trivial within-bounds minimizer that always reports the lower
bound; it satisfies the membership contract of the SciPy bounded
minimizer. -/
def optBot : Minimizer := fun _ lo _ => lo

/-- The trivial within-bounds minimizer that always reports the upper
bound. -/
def optTop : Minimizer := fun _ _ hi => hi

/-- A model with a degenerate (zero-strength) bequest motive, used to
instantiate solver contracts concretely: the period-2 objective reduces to
plain CRRA utility, which is strictly increasing, so the upper bound is
the exact maximizer. -/
def gammaZeroModel : ConSavModel := ⟨0.05, 0.95, 5, some 0, none, some 1, none, none, 0.5⟩

/-! ## C3: the closed-form solver satisfies the budget identity -/

/-- C3: for every initial wealth `m1` and parameters with `1 + r ≠ 0`, the
pair returned by `solve_cons_crra` satisfies `c1* + c2*/(1+r) = m1`
exactly; `c1*` is the root-finder output on the Euler objective seeded at
`m1/2`, `c2* = (1+r)*(m1-c1*)`, and whenever the root-finder does return a
root of the Euler condition, `c1*` equals the closed form
`(1+r)*m1/((beta*(1+r))^(1/rho)+1+r)`. -/
theorem solve_cons_crra_budget (M : ConSavModel) (rootfind : RootFinder)
    (m1 : ℝ) (hr : 1 + M.r ≠ 0) :
    (solve_cons_crra M rootfind m1).1 = rootfind (euler_obj M m1) (m1 / 2) ∧
    (solve_cons_crra M rootfind m1).2 =
      (1 + M.r) * (m1 - (solve_cons_crra M rootfind m1).1) ∧
    (solve_cons_crra M rootfind m1).1 +
      (solve_cons_crra M rootfind m1).2 / (1 + M.r) = m1 ∧
    (euler_obj M m1 (solve_cons_crra M rootfind m1).1 = 0 →
      (solve_cons_crra M rootfind m1).1 =
        (1 + M.r) * m1 / ((M.beta * (1 + M.r)) ^ (1 / M.rho) + 1 + M.r)) := by
  refine ⟨rfl, rfl, ?_, ?_⟩
  · show rootfind (euler_obj M m1) (m1 / 2) +
      (1 + M.r) * (m1 - rootfind (euler_obj M m1) (m1 / 2)) / (1 + M.r) = m1
    field_simp
  · intro h0
    have := sub_eq_zero.mp h0
    simpa [euler_obj] using this

/-- Witness for C3 at `defaultModel`, the identity root-finder and `m1 = 2`. -/
theorem solve_cons_crra_budget_witness :
    (1 : ℝ) + defaultModel.r ≠ 0 ∧
    ((solve_cons_crra defaultModel (fun _ x => x) 2).1 +
      (solve_cons_crra defaultModel (fun _ x => x) 2).2 /
        (1 + defaultModel.r) = 2) :=
  ⟨by norm_num [defaultModel],
    (solve_cons_crra_budget defaultModel (fun _ x => x) 2
      (by norm_num [defaultModel])).2.2.1⟩

/-! ## C10: the `solvez*` entry points require `gamma` and `kappa` -/

/-- C10: the default-constructed model (with `gamma = None`, `kappa = None`)
makes every `solvez*` entry point fail (the failure already occurs for the
objective of the first period-2 grid point `m2 = 1e-8`, where `v2_func`
raises), while `solve_cons_crra` reads only `r`, `beta`, `rho` — it is
insensitive to every other field and succeeds on the default model,
returning the seeded root and `(1+r)*(m1-c1*)`. -/
theorem solvez_requires_bequest_params (opt : Minimizer)
    (v1 : ℝ → ℝ → (ℝ → ℝ) → ℝ) (v1s : ℝ → ℝ → ℝ → (ℝ → ℝ) → ℝ)
    (draws : ℕ → ℝ) (rf : RootFinder) (m1 c2 : ℝ)
    (r β ρ p p' : ℝ) (g d k sl sh g' d' k' sl' sh' : Option ℝ) :
    solvez defaultModel opt v1 = none ∧
    solvez_no_risk defaultModel opt v1 = none ∧
    solvez_stoch defaultModel opt v1s draws = none ∧
    solve_period_2 defaultModel opt = none ∧
    (linspace lowBound 5 500).getD 0 0 = lowBound ∧
    v2_func defaultModel c2 lowBound = none ∧
    solve_cons_crra ⟨r, β, ρ, g, d, k, sl, sh, p⟩ rf m1 =
      solve_cons_crra ⟨r, β, ρ, g', d', k', sl', sh', p'⟩ rf m1 ∧
    solve_cons_crra defaultModel rf m1 =
      (rf (euler_obj defaultModel m1) (m1 / 2),
        (1 + defaultModel.r) *
          (m1 - rf (euler_obj defaultModel m1) (m1 / 2))) := by
  refine ⟨?_, ?_, ?_, ?_, ?_, ?_, rfl, rfl⟩
  · simp [solvez, solve_period_2, defaultModel]
  · simp [solvez_no_risk, solve_period_2, defaultModel]
  · simp [solvez_stoch, solve_period_2, defaultModel]
  · simp [solve_period_2, defaultModel]
  · rw [linspace_getD lowBound 5 500 0 (by norm_num)]
    norm_num
  · simp [v2_func, defaultModel]

/-! ## C4: the deterministic-risk period-1 variant -/

/-- C4: with `delta` populated, the deterministic-risk continuation uses
next-period wealth `(1+r)*(m1-c1) + y2` with the two fixed incomes
`y2 = 1-delta` and `y2 = 1+delta`, weights the high outcome by `p` in the
expectation `p * V2(high) + (1-p) * V2(low)`, and `solve_period_1` runs
over a wealth grid of exactly 100 points, optimizing each point over
bounds `(1e-8, m1)`. -/
theorem deterministic_risk_variant_spec (M : ConSavModel) (δ : ℝ)
    (hδ : M.delta = some δ) (c1 m1 : ℝ) (W : ℝ → ℝ) (opt : Minimizer)
    (v1 : ℝ → ℝ → (ℝ → ℝ) → ℝ) :
    v1_func M c1 m1 W =
      some (utility_crra M c1 +
        M.beta * (M.p * W ((1 + M.r) * (m1 - c1) + (1 + δ)) +
          (1 - M.p) * W ((1 + M.r) * (m1 - c1) + (1 - δ)))) ∧
    (solve_period_1 opt W v1).1.length = 100 ∧
    (solve_period_1 opt W v1).2.1.length = 100 ∧
    (solve_period_1 opt W v1).2.2.length = 100 ∧
    (∀ i : ℕ, i < 100 →
      (solve_period_1 opt W v1).1.getD i 0 =
        lowBound + (i : ℝ) * ((4 - lowBound) / 99) ∧
      (solve_period_1 opt W v1).2.2.getD i 0 =
        opt (fun c => -(v1 c ((solve_period_1 opt W v1).1.getD i 0) W))
          lowBound ((solve_period_1 opt W v1).1.getD i 0) ∧
      (solve_period_1 opt W v1).2.1.getD i 0 =
        v1 ((solve_period_1 opt W v1).2.2.getD i 0)
          ((solve_period_1 opt W v1).1.getD i 0) W) := by
  have he := solve_period_1_eq opt W v1
  have h1 : (solve_period_1 opt W v1).1 = linspace lowBound 4 100 := by rw [he]
  have h2 : (solve_period_1 opt W v1).2.1 = (linspace lowBound 4 100).map
      (fun m1 => v1 (opt (fun c1 => -(v1 c1 m1 W)) lowBound m1) m1 W) := by
    rw [he]
  have h3 : (solve_period_1 opt W v1).2.2 = (linspace lowBound 4 100).map
      (fun m1 => opt (fun c1 => -(v1 c1 m1 W)) lowBound m1) := by rw [he]
  refine ⟨by simp [v1_func, hδ, v1_core], ?_, ?_, ?_, ?_⟩
  · rw [h1]; exact linspace_length _ _ _
  · rw [h2]; simp [linspace_length]
  · rw [h3]; simp [linspace_length]
  · intro i hi
    have hlen : i < (linspace lowBound 4 100).length := by
      rw [linspace_length]; exact hi
    have hg : (linspace lowBound 4 100).getD i 0 =
        lowBound + (i : ℝ) * ((4 - lowBound) / 99) := by
      rw [linspace_getD lowBound 4 100 i hi]; norm_num
    have hm : (solve_period_1 opt W v1).1.getD i 0 =
        lowBound + (i : ℝ) * ((4 - lowBound) / 99) := by rw [h1, hg]
    have hc2 : (solve_period_1 opt W v1).2.2.getD i 0 =
        opt (fun c => -(v1 c (lowBound + (i : ℝ) * ((4 - lowBound) / 99)) W))
          lowBound (lowBound + (i : ℝ) * ((4 - lowBound) / 99)) := by
      rw [h3, map_getD _ _ _ hlen, hg]
    refine ⟨hm, ?_, ?_⟩
    · rw [hm, hc2]
    · rw [hm, hc2, h2, map_getD _ _ _ hlen, hg]

/-- Witness for C4: the default model with `delta := 0.1`, trivial
optimizer and interpolator, at grid index 0. -/
theorem deterministic_risk_variant_spec_witness :
    let M : ConSavModel := ⟨0.05, 0.95, 5, none, some 0.1, none, none, none, 0.5⟩
    v1_func M 1 2 (fun _ => 0) =
      some (utility_crra M 1 +
        M.beta * (M.p * (fun (_ : ℝ) => (0 : ℝ)) ((1 + M.r) * (2 - 1) + (1 + 0.1)) +
          (1 - M.p) * (fun (_ : ℝ) => (0 : ℝ)) ((1 + M.r) * (2 - 1) + (1 - 0.1)))) ∧
    (solve_period_1 (fun _ lo _ => lo) (fun _ => 0) (fun _ _ _ => 0)).1.length = 100 :=
  ⟨(deterministic_risk_variant_spec
      ⟨0.05, 0.95, 5, none, some 0.1, none, none, none, 0.5⟩ 0.1 rfl 1 2
      (fun _ => 0) (fun _ lo _ => lo) (fun _ _ _ => 0)).1,
    (deterministic_risk_variant_spec
      ⟨0.05, 0.95, 5, none, some 0.1, none, none, none, 0.5⟩ 0.1 rfl 1 2
      (fun _ => 0) (fun _ lo _ => lo) (fun _ _ _ => 0)).2.1⟩

/-! ## C5: the stochastic period-1 variant -/

/-- C5: with the sigma fields populated, `solve_period_1_stoch` runs its
loop to completion over a wealth grid of exactly 300 points; the `i`-th
grid point consumes exactly the `i`-th entry of the draw stream (one fresh
draw per grid point, not one per solve call); the continuation of
`v1_func_stoch` uses next-period wealth `(1+r)*(m1-c1)*(1-sigma)` (low)
and `(1+r)*(m1-c1)*(1+sigma)` (high) and expectation
`p * V2(high) + (1-p) * V2(low)`; and when every draw lies in
`[sigma_low, sigma_high]` so does the draw used at each point. -/
theorem stochastic_variant_spec (M : ConSavModel) (opt : Minimizer)
    (W : ℝ → ℝ) (v1 : ℝ → ℝ → ℝ → (ℝ → ℝ) → ℝ) (draws : ℕ → ℝ)
    (c1 m1 σ slo shi : ℝ) (hlo : M.sigma_low = some slo)
    (hhi : M.sigma_high = some shi) :
    v1_func_stoch M c1 m1 σ W =
      utility_crra M c1 +
        M.beta * (M.p * W ((1 + M.r) * (m1 - c1) * (1 + σ)) +
          (1 - M.p) * W ((1 + M.r) * (m1 - c1) * (1 - σ))) ∧
    solve_period_1_stoch M opt W v1 draws =
      some (solve_period_1_stoch_body opt W v1 draws) ∧
    (solve_period_1_stoch_body opt W v1 draws).1.length = 300 ∧
    (solve_period_1_stoch_body opt W v1 draws).2.1.length = 300 ∧
    (solve_period_1_stoch_body opt W v1 draws).2.2.length = 300 ∧
    (∀ i : ℕ, i < 300 →
      (solve_period_1_stoch_body opt W v1 draws).1.getD i 0 =
        lowBound + (i : ℝ) * ((5 - lowBound) / 299) ∧
      (solve_period_1_stoch_body opt W v1 draws).2.2.getD i 0 =
        opt (fun c => -(v1 c
            ((solve_period_1_stoch_body opt W v1 draws).1.getD i 0)
            (draws i) W))
          lowBound ((solve_period_1_stoch_body opt W v1 draws).1.getD i 0) ∧
      (solve_period_1_stoch_body opt W v1 draws).2.1.getD i 0 =
        v1 ((solve_period_1_stoch_body opt W v1 draws).2.2.getD i 0)
          ((solve_period_1_stoch_body opt W v1 draws).1.getD i 0) (draws i) W ∧
      ((∀ n, draws n ∈ Icc slo shi) → draws i ∈ Icc slo shi)) := by
  have he := solve_period_1_stoch_eq opt W v1 draws
  have h1 : (solve_period_1_stoch_body opt W v1 draws).1 =
      linspace lowBound 5 300 := by
    rw [he]
  have h2 : (solve_period_1_stoch_body opt W v1 draws).2.1 = (List.range 300).map
      (fun (i : ℕ) =>
        v1 (opt (fun c1 => -(v1 c1 (lowBound + (i : ℝ) * ((5 - lowBound) / 299))
            (draws i) W)) lowBound (lowBound + (i : ℝ) * ((5 - lowBound) / 299)))
          (lowBound + (i : ℝ) * ((5 - lowBound) / 299)) (draws i) W) := by
    rw [he]
  have h3 : (solve_period_1_stoch_body opt W v1 draws).2.2 = (List.range 300).map
      (fun (i : ℕ) =>
        opt (fun c1 => -(v1 c1 (lowBound + (i : ℝ) * ((5 - lowBound) / 299))
          (draws i) W)) lowBound (lowBound + (i : ℝ) * ((5 - lowBound) / 299))) := by
    rw [he]
  refine ⟨rfl, solve_period_1_stoch_some M slo shi hlo hhi opt W v1 draws,
    ?_, ?_, ?_, ?_⟩
  · rw [h1]; exact linspace_length _ _ _
  · rw [h2]; simp
  · rw [h3]; simp
  · intro i hi
    have hm : (solve_period_1_stoch_body opt W v1 draws).1.getD i 0 =
        lowBound + (i : ℝ) * ((5 - lowBound) / 299) := by
      rw [h1, linspace_getD lowBound 5 300 i hi]; norm_num
    have hc2 : (solve_period_1_stoch_body opt W v1 draws).2.2.getD i 0 =
        opt (fun c => -(v1 c (lowBound + (i : ℝ) * ((5 - lowBound) / 299))
          (draws i) W)) lowBound (lowBound + (i : ℝ) * ((5 - lowBound) / 299)) := by
      rw [h3, range_map_getD _ _ _ hi]
    refine ⟨hm, ?_, ?_, fun h => h i⟩
    · rw [hm, hc2]
    · rw [hm, hc2, h2, range_map_getD _ _ _ hi]

/-- Witness for C5 on a model with `sigma ~ Uniform(0, 1)`, a trivial
optimizer, interpolator, objective and a constant draw stream, grid
index 0. -/
theorem stochastic_variant_spec_witness :
    solve_period_1_stoch ⟨0.05, 0.95, 5, none, none, none, some 0, some 1, 0.5⟩
        (fun _ lo _ => lo) (fun _ => 0) (fun _ _ _ _ => 0) (fun _ => 0) =
      some (solve_period_1_stoch_body (fun _ lo _ => lo) (fun _ => 0)
        (fun _ _ _ _ => 0) (fun _ => 0)) ∧
    (solve_period_1_stoch_body (fun _ lo _ => lo) (fun _ => 0)
      (fun _ _ _ _ => 0) (fun _ => 0)).1.length = 300 ∧
    (solve_period_1_stoch_body (fun _ lo _ => lo) (fun _ => 0)
      (fun _ _ _ _ => 0) (fun _ => 0)).1.getD 0 0 =
        lowBound + ((0 : ℕ) : ℝ) * ((5 - lowBound) / 299) :=
  ⟨(stochastic_variant_spec ⟨0.05, 0.95, 5, none, none, none, some 0, some 1, 0.5⟩
      (fun _ lo _ => lo) (fun _ => 0) (fun _ _ _ _ => 0) (fun _ => 0)
      0 0 0 0 1 rfl rfl).2.1,
    (stochastic_variant_spec ⟨0.05, 0.95, 5, none, none, none, some 0, some 1, 0.5⟩
      (fun _ lo _ => lo) (fun _ => 0) (fun _ _ _ _ => 0) (fun _ => 0)
      0 0 0 0 1 rfl rfl).2.2.1,
    ((stochastic_variant_spec ⟨0.05, 0.95, 5, none, none, none, some 0, some 1, 0.5⟩
      (fun _ lo _ => lo) (fun _ => 0) (fun _ _ _ _ => 0) (fun _ => 0)
      0 0 0 0 1 rfl rfl).2.2.2.2.2 0 (by norm_num)).1⟩

/-! ## C6: delta = 0 in the deterministic-risk variant reproduces the
no-risk variant -/

/-- With `delta = 0` the two branch wealths of `v1_func` coincide with the
no-risk wealth and the `p`-weighted expectation collapses. -/
theorem v1_core_zero_delta (M : ConSavModel) (c1 m1 : ℝ) (W : ℝ → ℝ) :
    v1_core M 0 c1 m1 W = v1_func_no_risk M c1 m1 W := by
  simp only [v1_core, v1_func_no_risk]
  ring_nf

/-- C6: on a model with `p = 0.5` and `delta = 0`, the deterministic-risk
period-1 value function agrees pointwise with the no-risk one, per-wealth
optimizations coincide, and at every pair of grid indices where the
100-point grid of `solve_period_1` and the 300-point grid of
`solve_period_1_no_risk` (both spanning `[1e-8, 4]`) carry the same
wealth, the returned period-1 consumptions coincide. -/
theorem zero_delta_reproduces_no_risk (M : ConSavModel)
    (hδ : M.delta = some 0) (hp : M.p = 0.5) (opt : Minimizer) (W : ℝ → ℝ) :
    (∀ (c1 m1 : ℝ) (W' : ℝ → ℝ),
      v1_func M c1 m1 W' = some (v1_func_no_risk M c1 m1 W')) ∧
    (solve_period_1 opt W (v1_core M 0)).1.length = 100 ∧
    (solve_period_1_no_risk opt W (v1_func_no_risk M)).1.length = 300 ∧
    (solve_period_1 opt W (v1_core M 0)).1.getD 0 0 = lowBound ∧
    (solve_period_1_no_risk opt W (v1_func_no_risk M)).1.getD 0 0 = lowBound ∧
    (solve_period_1 opt W (v1_core M 0)).1.getD 99 0 = 4 ∧
    (solve_period_1_no_risk opt W (v1_func_no_risk M)).1.getD 299 0 = 4 ∧
    (∀ m1 : ℝ,
      opt (fun c1 => -(v1_core M 0 c1 m1 W)) lowBound m1 =
        opt (fun c1 => -(v1_func_no_risk M c1 m1 W)) lowBound m1) ∧
    (∀ i j : ℕ, i < 100 → j < 300 →
      (solve_period_1 opt W (v1_core M 0)).1.getD i 0 =
        (solve_period_1_no_risk opt W (v1_func_no_risk M)).1.getD j 0 →
      (solve_period_1 opt W (v1_core M 0)).2.2.getD i 0 =
        (solve_period_1_no_risk opt W (v1_func_no_risk M)).2.2.getD j 0) := by
  have hv := v1_core_zero_delta M
  have hobj : ∀ m1 : ℝ, (fun c1 => -(v1_core M 0 c1 m1 W)) =
      (fun c1 => -(v1_func_no_risk M c1 m1 W)) :=
    fun m1 => funext fun c1 => by rw [hv]
  have hed := solve_period_1_eq opt W (v1_core M 0)
  have hen := solve_period_1_no_risk_eq opt W (v1_func_no_risk M)
  have h1d : (solve_period_1 opt W (v1_core M 0)).1 = linspace lowBound 4 100 := by
    rw [hed]
  have h1n : (solve_period_1_no_risk opt W (v1_func_no_risk M)).1 =
      linspace lowBound 4 300 := by rw [hen]
  have h3d : (solve_period_1 opt W (v1_core M 0)).2.2 =
      (linspace lowBound 4 100).map
        (fun m1 => opt (fun c1 => -(v1_core M 0 c1 m1 W)) lowBound m1) := by
    rw [hed]
  have h3n : (solve_period_1_no_risk opt W (v1_func_no_risk M)).2.2 =
      (linspace lowBound 4 300).map
        (fun m1 => opt (fun c1 => -(v1_func_no_risk M c1 m1 W)) lowBound m1) := by
    rw [hen]
  refine ⟨fun c1 m1 W' => by simp [v1_func, hδ, hv c1 m1 W'], ?_, ?_, ?_, ?_, ?_, ?_,
    fun m1 => by rw [hobj m1], ?_⟩
  · rw [h1d]; exact linspace_length _ _ _
  · rw [h1n]; exact linspace_length _ _ _
  · rw [h1d, linspace_getD lowBound 4 100 0 (by norm_num)]; norm_num
  · rw [h1n, linspace_getD lowBound 4 300 0 (by norm_num)]; norm_num
  · rw [h1d, linspace_getD lowBound 4 100 99 (by norm_num)]
    norm_num
    field_simp
  · rw [h1n, linspace_getD lowBound 4 300 299 (by norm_num)]
    norm_num
    field_simp
  · intro i j hi hj hij
    have hleni : i < (linspace lowBound 4 100).length := by
      rw [linspace_length]; exact hi
    have hlenj : j < (linspace lowBound 4 300).length := by
      rw [linspace_length]; exact hj
    rw [h1d, h1n] at hij
    rw [h3d, h3n, map_getD _ _ _ hleni, map_getD _ _ _ hlenj, hij, hobj]

/-- Witness for C6 at a concrete model with `delta = 0`, `p = 0.5`, at the
shared first grid point of the two variants. -/
theorem zero_delta_reproduces_no_risk_witness :
    let M : ConSavModel := ⟨0.05, 0.95, 5, none, some 0, none, none, none, 0.5⟩
    (solve_period_1 optBot (fun _ => 0) (v1_core M 0)).2.2.getD 0 0 =
      (solve_period_1_no_risk optBot (fun _ => 0) (v1_func_no_risk M)).2.2.getD 0 0 := by
  intro M
  have h := zero_delta_reproduces_no_risk M rfl rfl optBot (fun _ => 0)
  exact h.2.2.2.2.2.2.2.2 0 0 (by norm_num) (by norm_num)
    (h.2.2.2.1.trans h.2.2.2.2.1.symm)

/-! ## C8: the interpolator extrapolates linearly and totally -/

/-- The last two nodes of the chain `q0, q1, pts`. -/
def lastTwo (q0 q1 : ℝ × ℝ) : List (ℝ × ℝ) → (ℝ × ℝ) × (ℝ × ℝ)
  | [] => (q0, q1)
  | q2 :: rest => lastTwo q1 q2 rest

theorem interpPts_of_le (g0 w0 g1 w1 : ℝ) (pts : List (ℝ × ℝ)) (x : ℝ)
    (h : x ≤ g1) : interpPts g0 w0 g1 w1 pts x = segLine g0 w0 g1 w1 x := by
  cases pts with
  | nil => rfl
  | cons q rest =>
    obtain ⟨g2, w2⟩ := q
    simp [interpPts, if_pos h]

theorem interpPts_of_gt (pts : List (ℝ × ℝ)) : ∀ g0 w0 g1 w1 x : ℝ, g1 < x →
    (∀ q ∈ pts, q.1 < x) →
    interpPts g0 w0 g1 w1 pts x =
      segLine (lastTwo (g0, w0) (g1, w1) pts).1.1 (lastTwo (g0, w0) (g1, w1) pts).1.2
        (lastTwo (g0, w0) (g1, w1) pts).2.1 (lastTwo (g0, w0) (g1, w1) pts).2.2 x := by
  induction pts with
  | nil => intro g0 w0 g1 w1 x _ _; rfl
  | cons q rest ih =>
    intro g0 w0 g1 w1 x hg hall
    obtain ⟨g2, w2⟩ := q
    have hx2 : g2 < x := hall (g2, w2) (List.mem_cons_self _ _)
    have hstep : interpPts g0 w0 g1 w1 ((g2, w2) :: rest) x =
        interpPts g1 w1 g2 w2 rest x := by
      simp [interpPts, if_neg (not_le.mpr hg)]
    have hl : lastTwo (g0, w0) (g1, w1) ((g2, w2) :: rest) =
        lastTwo (g1, w1) (g2, w2) rest := rfl
    rw [hstep, hl]
    exact ih g1 w1 g2 w2 x hx2 (fun q hq => hall q (List.mem_cons_of_mem _ hq))

/-- C8: the interpolator built from any two-or-more-point grid returns a
value for every real query (it is a total function, with no error path);
for queries at or below the second node — in particular strictly below the
grid minimum — it returns the linear extension of the first segment, and
for queries strictly above every node it returns the linear extension of
the last segment. -/
theorem interp_extrapolation (g0 w0 g1 w1 : ℝ) (gs ws : List ℝ) (x : ℝ) :
    (∃ y : ℝ, interp (g0 :: g1 :: gs) (w0 :: w1 :: ws) x = y) ∧
    (x ≤ g1 →
      interp (g0 :: g1 :: gs) (w0 :: w1 :: ws) x = segLine g0 w0 g1 w1 x) ∧
    (g1 < x → (∀ q ∈ gs.zip ws, q.1 < x) →
      interp (g0 :: g1 :: gs) (w0 :: w1 :: ws) x =
        segLine (lastTwo (g0, w0) (g1, w1) (gs.zip ws)).1.1
          (lastTwo (g0, w0) (g1, w1) (gs.zip ws)).1.2
          (lastTwo (g0, w0) (g1, w1) (gs.zip ws)).2.1
          (lastTwo (g0, w0) (g1, w1) (gs.zip ws)).2.2 x) :=
  ⟨⟨_, rfl⟩, fun h => interpPts_of_le g0 w0 g1 w1 (gs.zip ws) x h,
    fun hg hall => interpPts_of_gt (gs.zip ws) g0 w0 g1 w1 x hg hall⟩

/-- Witness for C8 on the three-node grid `[0,1,2]` with values `[0,1,0]`:
the query `-5` (below the grid) uses the first segment's line and the
query `7` (above the grid) uses the last segment's line. -/
theorem interp_extrapolation_witness :
    interp [0, 1, 2] [0, 1, 0] (-5) = segLine 0 0 1 1 (-5) ∧
    interp [0, 1, 2] [0, 1, 0] 7 =
      segLine (lastTwo (0, 0) (1, 1) ([2].zip [0])).1.1
        (lastTwo (0, 0) (1, 1) ([2].zip [0])).1.2
        (lastTwo (0, 0) (1, 1) ([2].zip [0])).2.1
        (lastTwo (0, 0) (1, 1) ([2].zip [0])).2.2 7 :=
  ⟨(interp_extrapolation 0 0 1 1 [2] [0] (-5)).2.1 (by norm_num),
    (interp_extrapolation 0 0 1 1 [2] [0] 7).2.2 (by norm_num)
      (by
        rintro q hq
        simp only [List.zip_cons_cons, List.zip_nil_right, List.mem_singleton] at hq
        rw [hq]
        norm_num)⟩

/-! ## C9 infrastructure: closed forms of the orchestration entry points -/

/-- A bounds-respecting selector minimizer: report whichever of the two
bounds has the smaller objective value. -/
def optSel : Minimizer := fun f lo hi => if f lo ≤ f hi then lo else hi

/-- A model for exercising the stochastic solver concretely: `r = 0`,
`beta = 1`, `rho = 5`, zero-strength bequest, `sigma ~ Uniform(-1, 1)`,
and all probability weight `p = 1` on the high outcome. -/
def stochModel : ConSavModel := ⟨0, 1, 5, some 0, none, some 1, some (-1), some 1, 1⟩

theorem solvez_eq (M : ConSavModel) (γ κ : ℝ) (hγ : M.gamma = some γ)
    (hκ : M.kappa = some κ) (opt : Minimizer) (v1 : ℝ → ℝ → (ℝ → ℝ) → ℝ) :
    solvez M opt v1 = some
      ((solve_period_1 opt (interp (linspace lowBound 5 500)
          ((linspace lowBound 5 500).map (fun m2 =>
            v2_val M γ κ (opt (fun c2 => -(v2_val M γ κ c2 m2)) lowBound m2) m2)))
        v1).1,
      (solve_period_1 opt (interp (linspace lowBound 5 500)
          ((linspace lowBound 5 500).map (fun m2 =>
            v2_val M γ κ (opt (fun c2 => -(v2_val M γ κ c2 m2)) lowBound m2) m2)))
        v1).2.2,
      linspace lowBound 5 500,
      (linspace lowBound 5 500).map (fun m2 =>
        opt (fun c2 => -(v2_val M γ κ c2 m2)) lowBound m2)) := by
  simp only [solvez, solve_period_2_eq M γ κ hγ hκ opt]

theorem solvez_no_risk_eq (M : ConSavModel) (γ κ : ℝ) (hγ : M.gamma = some γ)
    (hκ : M.kappa = some κ) (opt : Minimizer) (v1 : ℝ → ℝ → (ℝ → ℝ) → ℝ) :
    solvez_no_risk M opt v1 = some
      ((solve_period_1_no_risk opt (interp (linspace lowBound 5 500)
          ((linspace lowBound 5 500).map (fun m2 =>
            v2_val M γ κ (opt (fun c2 => -(v2_val M γ κ c2 m2)) lowBound m2) m2)))
        v1).1,
      (solve_period_1_no_risk opt (interp (linspace lowBound 5 500)
          ((linspace lowBound 5 500).map (fun m2 =>
            v2_val M γ κ (opt (fun c2 => -(v2_val M γ κ c2 m2)) lowBound m2) m2)))
        v1).2.2,
      linspace lowBound 5 500,
      (linspace lowBound 5 500).map (fun m2 =>
        opt (fun c2 => -(v2_val M γ κ c2 m2)) lowBound m2)) := by
  simp only [solvez_no_risk, solve_period_2_eq M γ κ hγ hκ opt]

theorem solvez_stoch_eq (M : ConSavModel) (γ κ slo shi : ℝ)
    (hγ : M.gamma = some γ) (hκ : M.kappa = some κ)
    (hlo : M.sigma_low = some slo) (hhi : M.sigma_high = some shi)
    (opt : Minimizer) (v1 : ℝ → ℝ → ℝ → (ℝ → ℝ) → ℝ) (draws : ℕ → ℝ) :
    solvez_stoch M opt v1 draws = some
      ((solve_period_1_stoch_body opt (interp (linspace lowBound 5 500)
          ((linspace lowBound 5 500).map (fun m2 =>
            v2_val M γ κ (opt (fun c2 => -(v2_val M γ κ c2 m2)) lowBound m2) m2)))
        v1 draws).1,
      (solve_period_1_stoch_body opt (interp (linspace lowBound 5 500)
          ((linspace lowBound 5 500).map (fun m2 =>
            v2_val M γ κ (opt (fun c2 => -(v2_val M γ κ c2 m2)) lowBound m2) m2)))
        v1 draws).2.2,
      linspace lowBound 5 500,
      (linspace lowBound 5 500).map (fun m2 =>
        opt (fun c2 => -(v2_val M γ κ c2 m2)) lowBound m2)) := by
  simp only [solvez_stoch, solve_period_2_eq M γ κ hγ hκ opt,
    solve_period_1_stoch, hlo, hhi]

/-- Two parameter bundles with equal fields are the same model. -/
theorem consav_ext (M M' : ConSavModel) (h1 : M.r = M'.r)
    (h2 : M.beta = M'.beta) (h3 : M.rho = M'.rho) (h4 : M.gamma = M'.gamma)
    (h5 : M.delta = M'.delta) (h6 : M.kappa = M'.kappa)
    (h7 : M.sigma_low = M'.sigma_low) (h8 : M.sigma_high = M'.sigma_high)
    (h9 : M.p = M'.p) : M = M' := by
  cases M
  cases M'
  simp_all

/-- The `i`-th point of the stochastic period-1 wealth grid
`np.linspace(1e-8,5,300)`. -/
def p1sgridpt (i : ℕ) : ℝ := lowBound + (i : ℝ) * ((5 - lowBound) / 299)

theorem lowBound_le_p1sgridpt (i : ℕ) : lowBound ≤ p1sgridpt i := by
  unfold p1sgridpt
  have h : (0 : ℝ) ≤ (i : ℝ) * ((5 - lowBound) / 299) := by
    apply mul_nonneg (Nat.cast_nonneg i)
    norm_num [lowBound]
  linarith

theorem sps_m1_getD (opt : Minimizer) (W : ℝ → ℝ)
    (v1 : ℝ → ℝ → ℝ → (ℝ → ℝ) → ℝ) (draws : ℕ → ℝ) (i : ℕ) (hi : i < 300) :
    (solve_period_1_stoch_body opt W v1 draws).1.getD i 0 = p1sgridpt i := by
  have he := solve_period_1_stoch_eq opt W v1 draws
  have h1 : (solve_period_1_stoch_body opt W v1 draws).1 =
      linspace lowBound 5 300 := by
    rw [he]
  rw [h1, linspace_getD _ _ _ i hi]
  unfold p1sgridpt
  norm_num

theorem sps_c1_getD (opt : Minimizer) (W : ℝ → ℝ)
    (v1 : ℝ → ℝ → ℝ → (ℝ → ℝ) → ℝ) (draws : ℕ → ℝ) (i : ℕ) (hi : i < 300) :
    (solve_period_1_stoch_body opt W v1 draws).2.2.getD i 0 =
      opt (fun c1 => -(v1 c1 (p1sgridpt i) (draws i) W)) lowBound (p1sgridpt i) := by
  have he := solve_period_1_stoch_eq opt W v1 draws
  have h3 : (solve_period_1_stoch_body opt W v1 draws).2.2 = (List.range 300).map
      (fun (i : ℕ) =>
        opt (fun c1 => -(v1 c1 (lowBound + (i : ℝ) * ((5 - lowBound) / 299))
          (draws i) W)) lowBound (lowBound + (i : ℝ) * ((5 - lowBound) / 299))) := by
    rw [he]
  rw [h3, range_map_getD _ _ _ hi]
  rfl

/-- The `i`-th point of the deterministic-risk period-1 wealth grid
`np.linspace(1e-8,4,100)`. -/
def p1gridpt (i : ℕ) : ℝ := lowBound + (i : ℝ) * ((4 - lowBound) / 99)

/-- The `i`-th point of the no-risk period-1 wealth grid
`np.linspace(1e-8,4,300)`. -/
def p1ngridpt (i : ℕ) : ℝ := lowBound + (i : ℝ) * ((4 - lowBound) / 299)

theorem sp1_m1_getD (opt : Minimizer) (W : ℝ → ℝ)
    (v1 : ℝ → ℝ → (ℝ → ℝ) → ℝ) (i : ℕ) (hi : i < 100) :
    (solve_period_1 opt W v1).1.getD i 0 = p1gridpt i := by
  have he := solve_period_1_eq opt W v1
  have h1 : (solve_period_1 opt W v1).1 = linspace lowBound 4 100 := by rw [he]
  rw [h1, linspace_getD _ _ _ i hi]
  unfold p1gridpt
  norm_num

theorem sp1_c1_getD (opt : Minimizer) (W : ℝ → ℝ)
    (v1 : ℝ → ℝ → (ℝ → ℝ) → ℝ) (i : ℕ) (hi : i < 100) :
    (solve_period_1 opt W v1).2.2.getD i 0 =
      opt (fun c1 => -(v1 c1 (p1gridpt i) W)) lowBound (p1gridpt i) := by
  have he := solve_period_1_eq opt W v1
  have h3 : (solve_period_1 opt W v1).2.2 = (linspace lowBound 4 100).map
      (fun m1 => opt (fun c1 => -(v1 c1 m1 W)) lowBound m1) := by rw [he]
  have hlen : i < (linspace lowBound 4 100).length := by
    rw [linspace_length]; exact hi
  have hg : (linspace lowBound 4 100).getD i 0 = p1gridpt i := by
    rw [linspace_getD _ _ _ i hi]
    unfold p1gridpt
    norm_num
  rw [h3, map_getD _ _ _ hlen, hg]

theorem sp1n_m1_getD (opt : Minimizer) (W : ℝ → ℝ)
    (v1 : ℝ → ℝ → (ℝ → ℝ) → ℝ) (i : ℕ) (hi : i < 300) :
    (solve_period_1_no_risk opt W v1).1.getD i 0 = p1ngridpt i := by
  have he := solve_period_1_no_risk_eq opt W v1
  have h1 : (solve_period_1_no_risk opt W v1).1 = linspace lowBound 4 300 := by
    rw [he]
  rw [h1, linspace_getD _ _ _ i hi]
  unfold p1ngridpt
  norm_num

theorem sp1n_c1_getD (opt : Minimizer) (W : ℝ → ℝ)
    (v1 : ℝ → ℝ → (ℝ → ℝ) → ℝ) (i : ℕ) (hi : i < 300) :
    (solve_period_1_no_risk opt W v1).2.2.getD i 0 =
      opt (fun c1 => -(v1 c1 (p1ngridpt i) W)) lowBound (p1ngridpt i) := by
  have he := solve_period_1_no_risk_eq opt W v1
  have h3 : (solve_period_1_no_risk opt W v1).2.2 = (linspace lowBound 4 300).map
      (fun m1 => opt (fun c1 => -(v1 c1 m1 W)) lowBound m1) := by rw [he]
  have hlen : i < (linspace lowBound 4 300).length := by
    rw [linspace_length]; exact hi
  have hg : (linspace lowBound 4 300).getD i 0 = p1ngridpt i := by
    rw [linspace_getD _ _ _ i hi]
    unfold p1ngridpt
    norm_num
  rw [h3, map_getD _ _ _ hlen, hg]

/-! ## C1: the period-2 solver -/

/-- The `i`-th point of the period-2 wealth grid `np.linspace(1e-8,5,500)`. -/
def p2gridpt (i : ℕ) : ℝ := lowBound + (i : ℝ) * ((5 - lowBound) / 499)

theorem lowBound_pos : (0 : ℝ) < lowBound := by norm_num [lowBound]

theorem lowBound_le_p2gridpt (i : ℕ) : lowBound ≤ p2gridpt i := by
  unfold p2gridpt
  have h : (0 : ℝ) ≤ (i : ℝ) * ((5 - lowBound) / 499) := by
    apply mul_nonneg (Nat.cast_nonneg i)
    norm_num [lowBound]
  linarith

/-- C1: with `rho`, `gamma`, `kappa` populated, `solve_period_2` returns
three parallel length-500 sequences (wealth, value, consumption); the
wealth grid is linearly spaced from the strictly positive `1e-8` to `5`;
the objective is `CRRA(c2) + gamma * CRRA(m2-c2+kappa)`; each consumption
entry is the bounded optimizer's output on the interval `(1e-8, m2)`, each
value entry is the objective at that consumption, and whenever the
optimizer maximizes its objective over `[1e-8, m2]` (the assumed contract
of the black-box SciPy minimizer), the returned consumption maximizes the
period-2 objective there. -/
theorem period2_solver_spec (M : ConSavModel) (γ κ : ℝ)
    (hγ : M.gamma = some γ) (hκ : M.kappa = some κ) (opt : Minimizer)
    (hopt : ∀ i : ℕ, i < 500 →
      IsMaxOn (fun c2 => v2_val M γ κ c2 (p2gridpt i))
        (Icc lowBound (p2gridpt i))
        (opt (fun c2 => -(v2_val M γ κ c2 (p2gridpt i))) lowBound (p2gridpt i))) :
    ∃ mg vg cg, solve_period_2 M opt = some (mg, vg, cg) ∧
      mg.length = 500 ∧ vg.length = 500 ∧ cg.length = 500 ∧
      (0 : ℝ) < lowBound ∧ mg.getD 0 0 = lowBound ∧ mg.getD 499 0 = 5 ∧
      (∀ c2 m2 : ℝ, v2_val M γ κ c2 m2 =
        utility_crra M c2 + γ * utility_crra M (m2 - c2 + κ)) ∧
      (∀ i : ℕ, i < 500 → mg.getD i 0 = p2gridpt i ∧
        cg.getD i 0 =
          opt (fun c2 => -(v2_val M γ κ c2 (p2gridpt i))) lowBound (p2gridpt i) ∧
        vg.getD i 0 = v2_val M γ κ (cg.getD i 0) (p2gridpt i) ∧
        IsMaxOn (fun c2 => v2_val M γ κ c2 (p2gridpt i))
          (Icc lowBound (p2gridpt i)) (cg.getD i 0)) := by
  refine ⟨linspace lowBound 5 500,
    (linspace lowBound 5 500).map (fun m2 =>
      v2_val M γ κ (opt (fun c2 => -(v2_val M γ κ c2 m2)) lowBound m2) m2),
    (linspace lowBound 5 500).map (fun m2 =>
      opt (fun c2 => -(v2_val M γ κ c2 m2)) lowBound m2),
    solve_period_2_eq M γ κ hγ hκ opt, linspace_length _ _ _,
    by simp [linspace_length], by simp [linspace_length], lowBound_pos,
    ?_, ?_, ?_, ?_⟩
  · rw [linspace_getD _ _ _ 0 (by norm_num)]
    norm_num
  · rw [linspace_getD _ _ _ 499 (by norm_num)]
    norm_num [lowBound]
  · intro c2 m2
    simp only [v2_val, utility_crra]
    ring
  · intro i hi
    have hlen : i < (linspace lowBound 5 500).length := by
      rw [linspace_length]; exact hi
    have hg : (linspace lowBound 5 500).getD i 0 = p2gridpt i := by
      rw [linspace_getD _ _ _ i hi]
      unfold p2gridpt
      norm_num
    have hc : ((linspace lowBound 5 500).map (fun m2 =>
        opt (fun c2 => -(v2_val M γ κ c2 m2)) lowBound m2)).getD i 0 =
        opt (fun c2 => -(v2_val M γ κ c2 (p2gridpt i))) lowBound (p2gridpt i) := by
      rw [map_getD _ _ _ hlen, hg]
    refine ⟨hg, hc, ?_, ?_⟩
    · rw [map_getD _ _ _ hlen, hg, hc]
    · rw [hc]; exact hopt i hi

/-- For the zero-bequest-strength model, plain CRRA utility with `rho = 5`
is increasing in consumption, so the upper bound maximizes the period-2
objective on `[1e-8, m2]`. -/
theorem isMaxOn_v2val_gammaZero (m2 : ℝ) (hm : lowBound ≤ m2) :
    IsMaxOn (fun c2 => v2_val gammaZeroModel 0 1 c2 m2) (Icc lowBound m2) m2 := by
  rw [isMaxOn_iff]
  intro x hx
  obtain ⟨hx1, hx2⟩ := hx
  have hx0 : (0 : ℝ) < x := lowBound_pos.trans_le hx1
  simp only [v2_val, zero_mul, zero_div, add_zero]
  have hrho : gammaZeroModel.rho = 5 := rfl
  rw [hrho]
  have he : (1 : ℝ) - 5 = -4 := by norm_num
  rw [he]
  have h1 : m2 ^ (-4 : ℝ) ≤ x ^ (-4 : ℝ) :=
    Real.rpow_le_rpow_of_nonpos hx0 hx2 (by norm_num)
  have h2 : x ^ (-4 : ℝ) / (1 - 5) ≤ m2 ^ (-4 : ℝ) / (1 - 5) :=
    div_le_div_of_nonpos_of_le (by norm_num) h1
  convert h2 using 2 <;> norm_num

/-- Witness for C1: the zero-bequest-strength model with the
upper-bound-reporting optimizer, which satisfies the maximizer contract at
every grid point. -/
theorem period2_solver_spec_witness :
    ∃ mg vg cg, solve_period_2 gammaZeroModel optTop = some (mg, vg, cg) ∧
      mg.length = 500 ∧ mg.getD 0 0 = lowBound ∧
      IsMaxOn (fun c2 => v2_val gammaZeroModel 0 1 c2 (p2gridpt 3))
        (Icc lowBound (p2gridpt 3)) (cg.getD 3 0) := by
  have hopt : ∀ i : ℕ, i < 500 →
      IsMaxOn (fun c2 => v2_val gammaZeroModel 0 1 c2 (p2gridpt i))
        (Icc lowBound (p2gridpt i))
        (optTop (fun c2 => -(v2_val gammaZeroModel 0 1 c2 (p2gridpt i)))
          lowBound (p2gridpt i)) :=
    fun i _ => isMaxOn_v2val_gammaZero (p2gridpt i) (lowBound_le_p2gridpt i)
  obtain ⟨mg, vg, cg, hsome, hl, _, _, _, hhead, _, _, hper⟩ :=
    period2_solver_spec gammaZeroModel 0 1 rfl rfl optTop hopt
  exact ⟨mg, vg, cg, hsome, hl, hhead, (hper 3 (by norm_num)).2.2.2⟩

/-! ## C2: the returned period-2 consumption and its local optimality -/

/-- Counterexample for C9 as stated: on `stochModel` — whose sigma fields
are populated, `sigma ~ Uniform(-1, 1)` — with in-support draws and a
bounds-respecting optimizer, the stochastic pipeline completes, but its
first grid point has degenerate bounds `(1e-8, m1)` with `m1 = 1e-8`, so
the returned `c1* = m1` does not lie in the open interval `(0, m1)`. -/
theorem stoch_open_interval_counterexample :
    ∃ m1g c1g m2g c2g,
      solvez_stoch stochModel optBot (v1_func_stoch stochModel)
        (fun _ => 0) = some (m1g, c1g, m2g, c2g) ∧
      stochModel.sigma_low = some (-1) ∧ stochModel.sigma_high = some 1 ∧
      (∀ n : ℕ, (fun _ => (0 : ℝ)) n ∈ Icc (-1 : ℝ) 1) ∧
      (∀ (f : ℝ → ℝ) (lo hi : ℝ), lo ≤ hi → optBot f lo hi ∈ Icc lo hi) ∧
      m1g.getD 0 0 = lowBound ∧ c1g.getD 0 0 = m1g.getD 0 0 ∧
      ¬ c1g.getD 0 0 < m1g.getD 0 0 := by
  have he := solvez_stoch_eq stochModel 0 1 (-1) 1 rfl rfl rfl rfl optBot
    (v1_func_stoch stochModel) (fun _ => 0)
  refine ⟨_, _, _, _, he, rfl, rfl, fun n => ⟨by norm_num, by norm_num⟩,
    fun f lo hi h => ⟨le_refl lo, h⟩, ?_, ?_, ?_⟩
  all_goals
    have h1 := sps_m1_getD optBot
      (interp (linspace lowBound 5 500)
        ((linspace lowBound 5 500).map (fun m2 =>
          v2_val stochModel 0 1
            (optBot (fun c2 => -(v2_val stochModel 0 1 c2 m2)) lowBound m2)
            m2)))
      (v1_func_stoch stochModel) (fun _ => 0) 0 (by norm_num)
    have h2 := sps_c1_getD optBot
      (interp (linspace lowBound 5 500)
        ((linspace lowBound 5 500).map (fun m2 =>
          v2_val stochModel 0 1
            (optBot (fun c2 => -(v2_val stochModel 0 1 c2 m2)) lowBound m2)
            m2)))
      (v1_func_stoch stochModel) (fun _ => 0) 0 (by norm_num)
    have hp0 : p1sgridpt 0 = lowBound := by
      unfold p1sgridpt
      norm_num
    rw [hp0] at h1 h2
  · exact h1
  · rw [h1, h2]
    rfl
  · rw [h1, h2]
    show ¬ optBot _ lowBound lowBound < lowBound
    exact lt_irrefl lowBound

/-! ### Concrete evaluation of the stochastic pipeline: the draws matter -/

/-- CRRA utility at the default risk aversion `rho = 5`. -/
def u5 (x : ℝ) : ℝ := x ^ ((1 : ℝ) - 5) / (1 - 5)

theorem u5_eq_ratfn (x : ℝ) (hx : 0 < x) : u5 x = -((x ^ (4 : ℕ))⁻¹ / 4) := by
  unfold u5
  rw [show (1 : ℝ) - 5 = -((4 : ℕ) : ℝ) by norm_num, Real.rpow_neg hx.le,
    Real.rpow_natCast]
  ring

theorem u5_strictMono {x y : ℝ} (hx : 0 < x) (hxy : x < y) : u5 x < u5 y := by
  unfold u5
  have h1 : y ^ ((1 : ℝ) - 5) < x ^ ((1 : ℝ) - 5) :=
    Real.rpow_lt_rpow_of_neg hx hxy (by norm_num)
  exact (div_lt_div_right_of_neg (by norm_num)).mpr h1

theorem v2_val_stochModel (x m2 : ℝ) : v2_val stochModel 0 1 x m2 = u5 x := by
  simp [v2_val, stochModel, u5]

theorem v1s_stochModel (c1 m1 σ : ℝ) (W : ℝ → ℝ) :
    v1_func_stoch stochModel c1 m1 σ W = u5 c1 + W ((m1 - c1) * (1 + σ)) := by
  simp [v1_func_stoch, utility_crra, stochModel, u5]

theorem p2grid_getD (i : ℕ) (hi : i < 500) :
    (linspace lowBound 5 500).getD i 0 = p2gridpt i := by
  rw [linspace_getD _ _ _ i hi]
  unfold p2gridpt
  norm_num

theorem p2gridpt_zero : p2gridpt 0 = lowBound := by
  unfold p2gridpt
  norm_num

theorem decomp3 (l : List ℝ) (h : 3 ≤ l.length) :
    l = l.getD 0 0 :: l.getD 1 0 :: l.getD 2 0 :: l.drop 3 := by
  cases l with
  | nil => simp at h
  | cons a t1 =>
    cases t1 with
    | nil => simp at h
    | cons b t2 =>
      cases t2 with
      | nil => simp at h
      | cons c t3 => rfl

theorem interp_second_segment (g0 w0 g1 w1 g2 w2 : ℝ) (gs ws : List ℝ) (q : ℝ)
    (h1 : g1 < q) (h2 : q ≤ g2) :
    interp (g0 :: g1 :: g2 :: gs) (w0 :: w1 :: w2 :: ws) q =
      segLine g1 w1 g2 w2 q := by
  show interpPts g0 w0 g1 w1 ((g2 :: gs).zip (w2 :: ws)) q = _
  rw [List.zip_cons_cons]
  simp only [interpPts, if_neg (not_le.mpr h1)]
  exact interpPts_of_le g1 w1 g2 w2 (gs.zip ws) q h2

/-- The period-2 grid value produced by the selector optimizer on the
zero-bequest-strength stochastic test model is exact CRRA utility at the
grid wealth. -/
theorem vF_eval (m2 : ℝ) (hm : lowBound ≤ m2) :
    v2_val stochModel 0 1
      (optSel (fun c2 => -(v2_val stochModel 0 1 c2 m2)) lowBound m2) m2 =
      u5 m2 := by
  rcases eq_or_lt_of_le hm with heq | hlt
  · unfold optSel
    rw [← heq]
    rw [if_pos (le_refl _)]
    exact v2_val_stochModel _ _
  · unfold optSel
    have hcond : ¬(-(v2_val stochModel 0 1 lowBound m2) ≤
        -(v2_val stochModel 0 1 m2 m2)) := by
      rw [v2_val_stochModel, v2_val_stochModel, neg_le_neg_iff]
      exact not_le.mpr (u5_strictMono lowBound_pos hlt)
    rw [if_neg hcond]
    exact v2_val_stochModel _ _

/-- The interpolator arising in the stochastic pipeline on `stochModel`
with the selector optimizer. -/
def stochW : ℝ → ℝ :=
  interp (linspace lowBound 5 500)
    ((linspace lowBound 5 500).map (fun m2 =>
      v2_val stochModel 0 1
        (optSel (fun c2 => -(v2_val stochModel 0 1 c2 m2)) lowBound m2) m2))

theorem length500_ge3 : 3 ≤ (linspace lowBound 5 500).length := by
  rw [linspace_length]
  norm_num

theorem stochW_first_segment (q : ℝ) (hq : q ≤ p2gridpt 1) :
    stochW q = segLine (p2gridpt 0) (u5 (p2gridpt 0))
      (p2gridpt 1) (u5 (p2gridpt 1)) q := by
  unfold stochW
  rw [decomp3 _ length500_ge3]
  simp only [List.map_cons, p2grid_getD 0 (by norm_num), p2grid_getD 1 (by norm_num),
    p2grid_getD 2 (by norm_num)]
  rw [vF_eval _ (le_of_eq p2gridpt_zero.symm), vF_eval _ (lowBound_le_p2gridpt 1)]
  exact interpPts_of_le _ _ _ _ _ q hq

theorem stochW_second_segment (q : ℝ) (h1 : p2gridpt 1 < q) (h2 : q ≤ p2gridpt 2) :
    stochW q = segLine (p2gridpt 1) (u5 (p2gridpt 1))
      (p2gridpt 2) (u5 (p2gridpt 2)) q := by
  unfold stochW
  rw [decomp3 _ length500_ge3]
  simp only [List.map_cons, p2grid_getD 0 (by norm_num), p2grid_getD 1 (by norm_num),
    p2grid_getD 2 (by norm_num)]
  rw [vF_eval _ (le_of_eq p2gridpt_zero.symm), vF_eval _ (lowBound_le_p2gridpt 1),
    vF_eval _ (lowBound_le_p2gridpt 2)]
  exact interp_second_segment _ _ _ _ _ _ _ _ q h1 h2

theorem lowBound_lt_p1sgridpt1 : lowBound < p1sgridpt 1 := by
  unfold p1sgridpt lowBound
  norm_num

/-- On `stochModel` with the selector optimizer, the draw streams
`sigma ≡ 0` and `sigma ≡ -1` (both inside `[sigma_low, sigma_high] =
[-1, 1]`) lead the stochastic pipeline to different outputs: at grid index
1, the first run keeps consumption at the lower bound while the second
consumes all wealth. -/
theorem stoch_draws_matter :
    ∃ d1 d2 : ℕ → ℝ,
      (∀ n, d1 n ∈ Icc (-1 : ℝ) 1) ∧ (∀ n, d2 n ∈ Icc (-1 : ℝ) 1) ∧
      solvez_stoch stochModel optSel (v1_func_stoch stochModel) d1 ≠
        solvez_stoch stochModel optSel (v1_func_stoch stochModel) d2 := by
  refine ⟨fun _ => 0, fun _ => -1,
    fun n => ⟨by norm_num, by norm_num⟩, fun n => ⟨le_refl _, by norm_num⟩, ?_⟩
  intro heq
  have he1 := solvez_stoch_eq stochModel 0 1 (-1) 1 rfl rfl rfl rfl optSel
    (v1_func_stoch stochModel) (fun _ => 0)
  have he2 := solvez_stoch_eq stochModel 0 1 (-1) 1 rfl rfl rfl rfl optSel
    (v1_func_stoch stochModel) (fun _ => -1)
  rw [he1, he2] at heq
  have heq2 := Option.some.inj heq
  have hceq : (solve_period_1_stoch_body optSel stochW (v1_func_stoch stochModel)
        (fun _ => 0)).2.2.getD 1 0 =
      (solve_period_1_stoch_body optSel stochW (v1_func_stoch stochModel)
        (fun _ => -1)).2.2.getD 1 0 :=
    congrArg (fun t : List ℝ × List ℝ × List ℝ × List ℝ => t.2.1.getD 1 0) heq2
  rw [sps_c1_getD optSel stochW (v1_func_stoch stochModel) (fun _ => 0) 1
      (by norm_num),
    sps_c1_getD optSel stochW (v1_func_stoch stochModel) (fun _ => -1) 1
      (by norm_num)] at hceq
  have hceq2 : optSel (fun c1 =>
        -(v1_func_stoch stochModel c1 (p1sgridpt 1) 0 stochW))
        lowBound (p1sgridpt 1) =
      optSel (fun c1 =>
        -(v1_func_stoch stochModel c1 (p1sgridpt 1) (-1) stochW))
        lowBound (p1sgridpt 1) := hceq
  have hcondB : ¬(-(v1_func_stoch stochModel lowBound (p1sgridpt 1) (-1) stochW) ≤
      -(v1_func_stoch stochModel (p1sgridpt 1) (p1sgridpt 1) (-1) stochW)) := by
    rw [v1s_stochModel, v1s_stochModel]
    have ha : (p1sgridpt 1 - lowBound) * (1 + (-1)) = 0 := by ring
    have hb : (p1sgridpt 1 - p1sgridpt 1) * (1 + (-1)) = 0 := by ring
    rw [ha, hb, neg_le_neg_iff, add_le_add_iff_right]
    exact not_le.mpr (u5_strictMono lowBound_pos lowBound_lt_p1sgridpt1)
  have hcondA : -(v1_func_stoch stochModel lowBound (p1sgridpt 1) 0 stochW) ≤
      -(v1_func_stoch stochModel (p1sgridpt 1) (p1sgridpt 1) 0 stochW) := by
    rw [v1s_stochModel, v1s_stochModel]
    have ha : (p1sgridpt 1 - lowBound) * (1 + 0) = (5 - lowBound) / 299 := by
      unfold p1sgridpt
      ring
    have hb : (p1sgridpt 1 - p1sgridpt 1) * (1 + 0) = 0 := by ring
    rw [ha, hb, neg_le_neg_iff]
    rw [stochW_first_segment 0 (by unfold p2gridpt lowBound; norm_num),
      stochW_second_segment ((5 - lowBound) / 299)
        (by unfold p2gridpt lowBound; norm_num)
        (by unfold p2gridpt lowBound; norm_num)]
    rw [u5_eq_ratfn _ lowBound_pos,
      u5_eq_ratfn _ (lowBound_pos.trans lowBound_lt_p1sgridpt1),
      u5_eq_ratfn _ (lowBound_pos.trans_le (lowBound_le_p2gridpt 0)),
      u5_eq_ratfn _ (lowBound_pos.trans_le (lowBound_le_p2gridpt 1)),
      u5_eq_ratfn _ (lowBound_pos.trans_le (lowBound_le_p2gridpt 2))]
    unfold segLine p2gridpt p1sgridpt lowBound
    norm_num
  have hA : optSel (fun c1 =>
      -(v1_func_stoch stochModel c1 (p1sgridpt 1) 0 stochW))
      lowBound (p1sgridpt 1) = lowBound := by
    show (if -(v1_func_stoch stochModel lowBound (p1sgridpt 1) 0 stochW) ≤
        -(v1_func_stoch stochModel (p1sgridpt 1) (p1sgridpt 1) 0 stochW)
      then lowBound else p1sgridpt 1) = lowBound
    rw [if_pos hcondA]
  have hB : optSel (fun c1 =>
      -(v1_func_stoch stochModel c1 (p1sgridpt 1) (-1) stochW))
      lowBound (p1sgridpt 1) = p1sgridpt 1 := by
    show (if -(v1_func_stoch stochModel lowBound (p1sgridpt 1) (-1) stochW) ≤
        -(v1_func_stoch stochModel (p1sgridpt 1) (p1sgridpt 1) (-1) stochW)
      then lowBound else p1sgridpt 1) = p1sgridpt 1
    rw [if_neg hcondB]
  rw [hA, hB] at hceq2
  exact (ne_of_lt lowBound_lt_p1sgridpt1) hceq2

/-- C9 amended: (a) the deterministic-risk and no-risk entry points are
pure functions of the parameter fields — two runs on models with identical
parameters return identical outputs; (b) the stochastic entry point's
output genuinely depends on the random draw stream: two streams inside
`[sigma_low, sigma_high]` produce different outputs on a concrete model;
(c) with a bounds-respecting optimizer every returned stochastic period-1
consumption lies in the closed interval `[1e-8, m1]` (hence is strictly
positive) — the original open upper end `c1* < m1` fails at the first grid
point, where the degenerate bounds force `c1* = m1`. -/
theorem reproducibility_amended :
    (∀ (M M' : ConSavModel) (opt : Minimizer) (v1 : ℝ → ℝ → (ℝ → ℝ) → ℝ),
      M.r = M'.r → M.beta = M'.beta → M.rho = M'.rho → M.gamma = M'.gamma →
      M.delta = M'.delta → M.kappa = M'.kappa → M.sigma_low = M'.sigma_low →
      M.sigma_high = M'.sigma_high → M.p = M'.p →
      solvez M opt v1 = solvez M' opt v1 ∧
        solvez_no_risk M opt v1 = solvez_no_risk M' opt v1) ∧
    (∃ d1 d2 : ℕ → ℝ,
      (∀ n, d1 n ∈ Icc (-1 : ℝ) 1) ∧ (∀ n, d2 n ∈ Icc (-1 : ℝ) 1) ∧
      solvez_stoch stochModel optSel (v1_func_stoch stochModel) d1 ≠
        solvez_stoch stochModel optSel (v1_func_stoch stochModel) d2) ∧
    (∀ (M : ConSavModel) (γ κ : ℝ) (opt : Minimizer)
        (v1s : ℝ → ℝ → ℝ → (ℝ → ℝ) → ℝ) (draws : ℕ → ℝ),
      M.gamma = some γ → M.kappa = some κ →
      (∀ (f : ℝ → ℝ) (lo hi : ℝ), lo ≤ hi → opt f lo hi ∈ Icc lo hi) →
      ∀ m1g c1g m2g c2g,
        solvez_stoch M opt v1s draws = some (m1g, c1g, m2g, c2g) →
        ∀ i : ℕ, i < 300 →
          0 < c1g.getD i 0 ∧ lowBound ≤ c1g.getD i 0 ∧
            c1g.getD i 0 ≤ m1g.getD i 0) := by
  refine ⟨?_, stoch_draws_matter, ?_⟩
  · intro M M' opt v1 h1 h2 h3 h4 h5 h6 h7 h8 h9
    rw [consav_ext M M' h1 h2 h3 h4 h5 h6 h7 h8 h9]
    exact ⟨rfl, rfl⟩
  · intro M γ κ opt v1s draws hγ hκ hmem m1g c1g m2g c2g hsome i hi
    rcases hlo : M.sigma_low with _ | slo
    · rw [solvez_stoch_fault M (Or.inl hlo) opt v1s draws] at hsome
      simp at hsome
    rcases hhi : M.sigma_high with _ | shi
    · rw [solvez_stoch_fault M (Or.inr hhi) opt v1s draws] at hsome
      simp at hsome
    rw [solvez_stoch_eq M γ κ slo shi hγ hκ hlo hhi opt v1s draws] at hsome
    have ht := Option.some.inj hsome
    simp only [Prod.mk.injEq] at ht
    obtain ⟨hm1, hc1, _, _⟩ := ht
    rw [← hm1, ← hc1, sps_m1_getD _ _ _ _ _ hi, sps_c1_getD _ _ _ _ _ hi]
    exact ⟨lowBound_pos.trans_le
        (hmem _ _ _ (lowBound_le_p1sgridpt i)).1,
      (hmem _ _ _ (lowBound_le_p1sgridpt i)).1,
      (hmem _ _ _ (lowBound_le_p1sgridpt i)).2⟩

/-- Witness for C9 (amended) with the bounds-respecting `optTop` on the
populated-sigma stochastic test model, at stochastic grid index 2. -/
theorem reproducibility_amended_witness :
    ∃ m1g c1g m2g c2g,
      solvez_stoch stochModel optTop (v1_func_stoch stochModel)
        (fun _ => 0) = some (m1g, c1g, m2g, c2g) ∧ 0 < c1g.getD 2 0 := by
  have hmem : ∀ (f : ℝ → ℝ) (lo hi : ℝ), lo ≤ hi → optTop f lo hi ∈ Icc lo hi :=
    fun f lo hi h => ⟨h, le_refl hi⟩
  have hs := solvez_stoch_eq stochModel 0 1 (-1) 1 rfl rfl rfl rfl optTop
    (v1_func_stoch stochModel) (fun _ => 0)
  refine ⟨_, _, _, _, hs, ?_⟩
  exact (reproducibility_amended.2.2 stochModel 0 1 optTop
    (v1_func_stoch stochModel) (fun _ => 0) rfl rfl hmem _ _ _ _ hs 2
    (by norm_num)).1

/-! ## C7: monotonicity of optimal consumption in wealth

Real-analysis groundwork: CRRA utility `x ^ (1-rho) / (1-rho)` is strictly
concave on `(0, ∞)` for `rho > 1`, concave functions have nonincreasing
increments, a strictly concave function has a strictly unique maximizer,
and a Topkis-style argument makes maximizers monotone in the wealth bound. -/

theorem deriv2_rpow_neg (p x : ℝ) (hx : 0 < x) :
    deriv^[2] (fun y : ℝ => y ^ p) x = p * ((p - 1) * x ^ (p - 1 - 1)) := by
  have hev : deriv (fun y : ℝ => y ^ p) =ᶠ[nhds x]
      (fun y : ℝ => p * y ^ (p - 1)) := by
    filter_upwards [Ioi_mem_nhds hx] with y hy
    exact Real.deriv_rpow_const (Or.inl (ne_of_gt hy))
  have h2 : deriv^[2] (fun y : ℝ => y ^ p) x =
      deriv (deriv (fun y : ℝ => y ^ p)) x := rfl
  rw [h2, hev.deriv_eq,
    deriv_const_mul _ ((Real.hasDerivAt_rpow_const
      (Or.inl (ne_of_gt hx))).differentiableAt),
    Real.deriv_rpow_const (Or.inl (ne_of_gt hx))]

theorem strictConvexOn_rpow_neg (p : ℝ) (hp : p < 0) :
    StrictConvexOn ℝ (Ioi 0) (fun x : ℝ => x ^ p) := by
  apply strictConvexOn_of_deriv2_pos' (convex_Ioi 0)
  · intro x hx
    exact (Real.continuousAt_rpow_const x p
      (Or.inl (ne_of_gt (mem_Ioi.mp hx)))).continuousWithinAt
  · intro x hx
    rw [deriv2_rpow_neg p x (mem_Ioi.mp hx)]
    have h1 : (0 : ℝ) < x ^ (p - 1 - 1) :=
      Real.rpow_pos_of_pos (mem_Ioi.mp hx) _
    exact mul_pos_of_neg_of_neg hp
      (mul_neg_of_neg_of_pos (by linarith) h1)

theorem strictConcaveOn_utility_crra (M : ConSavModel) (hρ : 1 < M.rho) :
    StrictConcaveOn ℝ (Ioi 0) (utility_crra M) := by
  have hconv := strictConvexOn_rpow_neg (1 - M.rho) (by linarith)
  refine ⟨convex_Ioi 0, ?_⟩
  intro x hx y hy hxy a b ha hb hab
  have hlt := hconv.2 hx hy hxy ha hb hab
  simp only [smul_eq_mul] at hlt ⊢
  unfold utility_crra
  have hneg : (1 : ℝ) - M.rho < 0 := by linarith
  have := (div_lt_div_right_of_neg hneg).mpr hlt
  calc a * (x ^ (1 - M.rho) / (1 - M.rho)) + b * (y ^ (1 - M.rho) / (1 - M.rho))
      = (a * x ^ (1 - M.rho) + b * y ^ (1 - M.rho)) / (1 - M.rho) := by ring
    _ < (a * x + b * y) ^ (1 - M.rho) / (1 - M.rho) := this

/-- Concave functions have nonincreasing increments: moving a step `t ≥ 0`
from a larger base point gains no more than from a smaller one. -/
theorem concave_increments {f : ℝ → ℝ} {s : Set ℝ} (hf : ConcaveOn ℝ s f)
    (a b t : ℝ) (hab : a ≤ b) (ht : 0 ≤ t) (ha : a ∈ s) (hb : b ∈ s)
    (hat : a + t ∈ s) (hbt : b + t ∈ s) :
    f (b + t) - f b ≤ f (a + t) - f a := by
  rcases eq_or_lt_of_le hab with rfl | hab'
  · exact le_of_eq rfl
  rcases eq_or_lt_of_le ht with rfl | ht'
  · simp
  have hD : 0 < b + t - a := by linarith
  have hs1 : (0 : ℝ) ≤ t / (b + t - a) := by positivity
  have hs2 : (0 : ℝ) ≤ (b - a) / (b + t - a) := by
    apply div_nonneg (by linarith) hD.le
  have hsum : (b - a) / (b + t - a) + t / (b + t - a) = 1 := by
    field_simp
    ring
  have h1 := hf.2 ha hbt hs2 hs1 hsum
  have h2 := hf.2 ha hbt hs1 (by linarith : (0:ℝ) ≤ (b - a) / (b + t - a))
    (by linarith : t / (b + t - a) + (b - a) / (b + t - a) = 1)
  simp only [smul_eq_mul] at h1 h2
  have harg1 : (b - a) / (b + t - a) * a + t / (b + t - a) * (b + t) = a + t := by
    field_simp
    ring
  have harg2 : t / (b + t - a) * a + (b - a) / (b + t - a) * (b + t) = b := by
    field_simp
    ring
  rw [harg1] at h1
  rw [harg2] at h2
  have hfa : (b - a) / (b + t - a) * f a + t / (b + t - a) * f a = f a := by
    rw [← add_mul, hsum, one_mul]
  have hfbt : (b - a) / (b + t - a) * f (b + t) +
      t / (b + t - a) * f (b + t) = f (b + t) := by
    rw [← add_mul, hsum, one_mul]
  linarith

/-- A maximizer of a strictly concave function is strictly better than any
other point of the set. -/
theorem strictConcave_max_unique {f : ℝ → ℝ} {s : Set ℝ}
    (hf : StrictConcaveOn ℝ s f) {c : ℝ} (hmax : IsMaxOn f s c)
    {x : ℝ} (hx : x ∈ s) (hc : c ∈ s) (hxc : x ≠ c) : f x < f c := by
  by_contra hcon
  push_neg at hcon
  have hm := hf.2 hx hc hxc (by norm_num : (0:ℝ) < 1/2)
    (by norm_num : (0:ℝ) < 1/2) (by norm_num)
  have hmem : (1/2 : ℝ) • x + (1/2 : ℝ) • c ∈ s :=
    hf.1 hx hc (by norm_num) (by norm_num) (by norm_num)
  have hle := isMaxOn_iff.mp hmax _ hmem
  simp only [smul_eq_mul] at hm hle
  linarith

/-- Topkis-style monotonicity: with a strictly dominant maximizer at the
smaller wealth and weakly increasing differences, the maximizer cannot
decrease when the wealth bound grows. -/
theorem argmax_mono_of_wid (f : ℝ → ℝ → ℝ) (a m m' c c' : ℝ)
    (hmm : m ≤ m') (hcm : c ∈ Icc a m) (hcm' : c' ∈ Icc a m')
    (hmax' : IsMaxOn (fun x => f x m') (Icc a m') c')
    (hstrict : ∀ x ∈ Icc a m, x ≠ c → f x m < f c m)
    (hwid : c' < c → f c m - f c' m ≤ f c m' - f c' m') :
    c ≤ c' := by
  by_contra hcon
  push_neg at hcon
  have hc'm : c' ∈ Icc a m := ⟨hcm'.1, le_trans hcon.le hcm.2⟩
  have h1 : f c' m < f c m := hstrict c' hc'm (ne_of_lt hcon)
  have h2 : f c m' ≤ f c' m' :=
    isMaxOn_iff.mp hmax' c ⟨hcm.1, le_trans hcm.2 hmm⟩
  have h3 := hwid hcon
  linarith

theorem v2_val_eq_utility (M : ConSavModel) (γ κ c2 m2 : ℝ) :
    v2_val M γ κ c2 m2 =
      utility_crra M c2 + γ * utility_crra M (m2 - c2 + κ) := by
  unfold v2_val utility_crra
  ring

theorem icc_subset_Ioi (m : ℝ) : Icc lowBound m ⊆ Ioi 0 :=
  fun _ hx => lowBound_pos.trans_le hx.1

/-- The period-2 objective `CRRA(c2) + gamma * CRRA(m2-c2+kappa)` is
strictly concave in `c2` on the feasible interval (for `rho > 1`,
`gamma ≥ 0`, `kappa > 0`). -/
theorem strictConcaveOn_p2obj (M : ConSavModel) (γ κ m2 : ℝ) (hρ : 1 < M.rho)
    (hγ : 0 ≤ γ) (hκ : 0 < κ) :
    StrictConcaveOn ℝ (Icc lowBound m2) (fun c2 => v2_val M γ κ c2 m2) := by
  have hu := strictConcaveOn_utility_crra M hρ
  have huI : StrictConcaveOn ℝ (Icc lowBound m2) (utility_crra M) :=
    hu.subset (icc_subset_Ioi m2) (convex_Icc _ _)
  have hbeq : ConcaveOn ℝ (Icc lowBound m2)
      (fun c2 => γ * utility_crra M (m2 - c2 + κ)) := by
    refine ⟨convex_Icc _ _, ?_⟩
    intro x hx y hy a b ha hb hab
    simp only [smul_eq_mul]
    have hX : m2 - x + κ ∈ Ioi 0 := by
      rw [mem_Ioi]
      have := hx.2
      linarith
    have hY : m2 - y + κ ∈ Ioi 0 := by
      rw [mem_Ioi]
      have := hy.2
      linarith
    have hcc := hu.concaveOn.2 hX hY ha hb hab
    simp only [smul_eq_mul] at hcc
    have harg : a * (m2 - x + κ) + b * (m2 - y + κ) =
        m2 - (a * x + b * y) + κ := by
      have hb1 : b = 1 - a := by linarith
      rw [hb1]
      ring
    rw [harg] at hcc
    calc a * (γ * utility_crra M (m2 - x + κ)) +
        b * (γ * utility_crra M (m2 - y + κ))
        = γ * (a * utility_crra M (m2 - x + κ) +
            b * utility_crra M (m2 - y + κ)) := by ring
      _ ≤ γ * utility_crra M (m2 - (a * x + b * y) + κ) :=
          mul_le_mul_of_nonneg_left hcc hγ
  have hfun : (fun c2 => v2_val M γ κ c2 m2) =
      utility_crra M + (fun c2 => γ * utility_crra M (m2 - c2 + κ)) := by
    funext c2
    rw [Pi.add_apply, v2_val_eq_utility]
  rw [hfun]
  exact huI.add_concaveOn hbeq

/-- Weakly increasing differences of the period-2 objective in
`(c2, m2)`. -/
theorem p2obj_wid (M : ConSavModel) (γ κ : ℝ) (hρ : 1 < M.rho) (hγ : 0 ≤ γ)
    (hκ : 0 < κ) (m m' c c' : ℝ) (hmm : m ≤ m')
    (hc'c : c' ≤ c) (hcm : c ≤ m) :
    v2_val M γ κ c m - v2_val M γ κ c' m ≤
      v2_val M γ κ c m' - v2_val M γ κ c' m' := by
  rw [v2_val_eq_utility, v2_val_eq_utility, v2_val_eq_utility,
    v2_val_eq_utility]
  have hu := (strictConcaveOn_utility_crra M hρ).concaveOn
  have hkey := concave_increments hu (m - c + κ) (m - c' + κ) (m' - m)
    (by linarith) (by linarith)
    (mem_Ioi.mpr (by linarith)) (mem_Ioi.mpr (by linarith))
    (mem_Ioi.mpr (by linarith)) (mem_Ioi.mpr (by linarith))
  have ha1 : m - c + κ + (m' - m) = m' - c + κ := by ring
  have ha2 : m - c' + κ + (m' - m) = m' - c' + κ := by ring
  rw [ha1, ha2] at hkey
  have h2 := mul_le_mul_of_nonneg_left hkey hγ
  rw [mul_sub, mul_sub] at h2
  linarith

theorem p2gridpt_mono {i j : ℕ} (hij : i ≤ j) : p2gridpt i ≤ p2gridpt j := by
  unfold p2gridpt
  have hc : (i : ℝ) ≤ (j : ℝ) := Nat.cast_le.mpr hij
  have hstep : (0 : ℝ) ≤ (5 - lowBound) / 499 := by norm_num [lowBound]
  have := mul_le_mul_of_nonneg_right hc hstep
  linarith

/-- Core of C7 for period 2: the per-grid-point maximizers are monotone in
the grid wealth. -/
theorem period2_monotone_core (M : ConSavModel) (γ κ : ℝ) (hρ : 1 < M.rho)
    (hγ : 0 ≤ γ) (hκ : 0 < κ) (opt : Minimizer)
    (hmem : ∀ i : ℕ, i < 500 →
      opt (fun c2 => -(v2_val M γ κ c2 (p2gridpt i))) lowBound (p2gridpt i) ∈
        Icc lowBound (p2gridpt i))
    (hmax : ∀ i : ℕ, i < 500 →
      IsMaxOn (fun c2 => v2_val M γ κ c2 (p2gridpt i))
        (Icc lowBound (p2gridpt i))
        (opt (fun c2 => -(v2_val M γ κ c2 (p2gridpt i))) lowBound (p2gridpt i)))
    (i j : ℕ) (hij : i ≤ j) (hj : j < 500) :
    opt (fun c2 => -(v2_val M γ κ c2 (p2gridpt i))) lowBound (p2gridpt i) ≤
      opt (fun c2 => -(v2_val M γ κ c2 (p2gridpt j))) lowBound (p2gridpt j) := by
  have hi : i < 500 := lt_of_le_of_lt hij hj
  apply argmax_mono_of_wid (fun c m => v2_val M γ κ c m) lowBound
    (p2gridpt i) (p2gridpt j) _ _ (p2gridpt_mono hij) (hmem i hi) (hmem j hj)
    (hmax j hj)
  · intro x hx hxc
    exact strictConcave_max_unique
      (strictConcaveOn_p2obj M γ κ (p2gridpt i) hρ hγ hκ)
      (hmax i hi) hx (hmem i hi) hxc
  · intro hlt
    exact p2obj_wid M γ κ hρ hγ hκ (p2gridpt i) (p2gridpt j) _ _
      (p2gridpt_mono hij) hlt.le (hmem i hi).2

/-! ### Concavity of the piecewise-linear interpolator -/

/-- Slope of the segment from `(g0, w0)` to `(g1, w1)`. -/
def slopeOf (g0 w0 g1 w1 : ℝ) : ℝ := (w1 - w0) / (g1 - g0)

/-- Node chains with strictly increasing nodes and nonincreasing segment
slopes — the shape of the period-2 value data. -/
inductive PLConcave : ℝ → ℝ → ℝ → ℝ → List (ℝ × ℝ) → Prop where
  | nil {g0 w0 g1 w1 : ℝ} : g0 < g1 → PLConcave g0 w0 g1 w1 []
  | cons {g0 w0 g1 w1 g2 w2 : ℝ} {rest : List (ℝ × ℝ)} : g0 < g1 →
      slopeOf g1 w1 g2 w2 ≤ slopeOf g0 w0 g1 w1 →
      PLConcave g1 w1 g2 w2 rest → PLConcave g0 w0 g1 w1 ((g2, w2) :: rest)

theorem PLConcave.head_lt {g0 w0 g1 w1 : ℝ} {pts : List (ℝ × ℝ)}
    (h : PLConcave g0 w0 g1 w1 pts) : g0 < g1 := by
  cases h with
  | nil h => exact h
  | cons h _ _ => exact h

theorem segLine_rebase (g0 w0 g1 w1 x : ℝ) (h : g0 ≠ g1) :
    segLine g0 w0 g1 w1 x = w1 + (x - g1) * slopeOf g0 w0 g1 w1 := by
  unfold segLine slopeOf
  have hne : g1 - g0 ≠ 0 := sub_ne_zero.mpr (Ne.symm h)
  field_simp
  ring

theorem concaveOn_affine (p q : ℝ) :
    ConcaveOn ℝ univ (fun x : ℝ => p * x + q) := by
  refine ⟨convex_univ, ?_⟩
  intro x _ y _ a b _ _ hab
  simp only [smul_eq_mul]
  have h : a * (p * x + q) + b * (p * y + q) = p * (a * x + b * y) + (a + b) * q := by
    ring
  rw [h, hab, one_mul]

theorem concaveOn_segLine (g0 w0 g1 w1 : ℝ) :
    ConcaveOn ℝ univ (segLine g0 w0 g1 w1) := by
  have h := concaveOn_affine ((w1 - w0) / (g1 - g0))
    (w0 - g0 * ((w1 - w0) / (g1 - g0)))
  convert h using 1
  funext x
  unfold segLine
  ring

theorem concaveOn_min {f g : ℝ → ℝ} (hf : ConcaveOn ℝ univ f)
    (hg : ConcaveOn ℝ univ g) :
    ConcaveOn ℝ univ (fun x => min (f x) (g x)) := by
  refine ⟨convex_univ, ?_⟩
  intro x _ y _ a b ha hb hab
  simp only [smul_eq_mul]
  have h1 := hf.2 (mem_univ x) (mem_univ y) ha hb hab
  have h2 := hg.2 (mem_univ x) (mem_univ y) ha hb hab
  simp only [smul_eq_mul] at h1 h2
  refine le_min ?_ ?_
  · calc a * min (f x) (g x) + b * min (f y) (g y)
        ≤ a * f x + b * f y :=
          add_le_add (mul_le_mul_of_nonneg_left (min_le_left _ _) ha)
            (mul_le_mul_of_nonneg_left (min_le_left _ _) hb)
      _ ≤ f (a * x + b * y) := h1
  · calc a * min (f x) (g x) + b * min (f y) (g y)
        ≤ a * g x + b * g y :=
          add_le_add (mul_le_mul_of_nonneg_left (min_le_right _ _) ha)
            (mul_le_mul_of_nonneg_left (min_le_right _ _) hb)
      _ ≤ g (a * x + b * y) := h2

/-- A `PLConcave` chain interpolates to a globally concave function that
lies below (the extension of) its first segment and agrees with it up to
the second node. -/
theorem plconcave_main (pts : List (ℝ × ℝ)) : ∀ g0 w0 g1 w1 : ℝ,
    PLConcave g0 w0 g1 w1 pts →
    ConcaveOn ℝ univ (fun x => interpPts g0 w0 g1 w1 pts x) ∧
    (∀ x : ℝ, interpPts g0 w0 g1 w1 pts x ≤ segLine g0 w0 g1 w1 x) ∧
    (∀ x : ℝ, x ≤ g1 → interpPts g0 w0 g1 w1 pts x = segLine g0 w0 g1 w1 x) := by
  induction pts with
  | nil =>
    intro g0 w0 g1 w1 _
    exact ⟨concaveOn_segLine g0 w0 g1 w1, fun x => le_refl _, fun x _ => rfl⟩
  | cons q rest ih =>
    intro g0 w0 g1 w1 h
    obtain ⟨g2, w2⟩ := q
    cases h with
    | cons hlt hsl htail =>
      obtain ⟨tconc, tle, teq⟩ := ih g1 w1 g2 w2 htail
      have hlt12 : g1 < g2 := htail.head_lt
      have hne01 : g0 ≠ g1 := ne_of_lt hlt
      have hline_le_left : ∀ x : ℝ, x ≤ g1 →
          segLine g0 w0 g1 w1 x ≤ segLine g1 w1 g2 w2 x := by
        intro x hx
        rw [segLine_rebase g0 w0 g1 w1 x hne01]
        show w1 + (x - g1) * slopeOf g0 w0 g1 w1 ≤
          w1 + (x - g1) * ((w2 - w1) / (g2 - g1))
        have hm := mul_le_mul_of_nonpos_left hsl
          (by linarith : x - g1 ≤ 0)
        unfold slopeOf at hm ⊢
        linarith
      have hline_le_right : ∀ x : ℝ, g1 ≤ x →
          segLine g1 w1 g2 w2 x ≤ segLine g0 w0 g1 w1 x := by
        intro x hx
        rw [segLine_rebase g0 w0 g1 w1 x hne01]
        show w1 + (x - g1) * ((w2 - w1) / (g2 - g1)) ≤
          w1 + (x - g1) * slopeOf g0 w0 g1 w1
        have hm := mul_le_mul_of_nonneg_left hsl
          (by linarith : (0 : ℝ) ≤ x - g1)
        unfold slopeOf at hm ⊢
        linarith
      have hmin : ∀ x : ℝ, interpPts g0 w0 g1 w1 ((g2, w2) :: rest) x =
          min (segLine g0 w0 g1 w1 x) (interpPts g1 w1 g2 w2 rest x) := by
        intro x
        rcases le_or_lt x g1 with hx | hx
        · rw [interpPts_of_le _ _ _ _ _ _ hx, teq x (le_trans hx hlt12.le)]
          exact (min_eq_left (hline_le_left x hx)).symm
        · have hstep : interpPts g0 w0 g1 w1 ((g2, w2) :: rest) x =
              interpPts g1 w1 g2 w2 rest x := by
            simp [interpPts, if_neg (not_le.mpr hx)]
          rw [hstep]
          exact (min_eq_right
            (le_trans (tle x) (hline_le_right x hx.le))).symm
      refine ⟨?_, ?_, ?_⟩
      · have hc := concaveOn_min (concaveOn_segLine g0 w0 g1 w1) tconc
        convert hc using 1
        funext x
        exact hmin x
      · intro x
        rw [hmin x]
        exact min_le_left _ _
      · intro x hx
        rw [hmin x, teq x (le_trans hx hlt12.le),
          min_eq_left (hline_le_left x hx)]

/-! ### The period-2 value data is PLConcave, so the pipeline
interpolator is concave -/

theorem utility_mid (M : ConSavModel) (hρ : 1 < M.rho) (x y : ℝ)
    (hx : 0 < x) (hy : 0 < y) :
    (utility_crra M x + utility_crra M y) / 2 ≤ utility_crra M ((x + y) / 2) := by
  have hu := (strictConcaveOn_utility_crra M hρ).concaveOn
  have h := hu.2 (mem_Ioi.mpr hx) (mem_Ioi.mpr hy)
    (by norm_num : (0:ℝ) ≤ 1/2) (by norm_num : (0:ℝ) ≤ 1/2) (by norm_num)
  simp only [smul_eq_mul] at h
  have harg : (1/2 : ℝ) * x + (1/2 : ℝ) * y = (x + y) / 2 := by ring
  rw [harg] at h
  linarith

/-- The recorded period-2 values are midpoint-concave across any uniform
wealth triple: this is concavity of the value function, carried by the
maximizers. -/
theorem grid_val_mid (M : ConSavModel) (γ κ : ℝ) (hρ : 1 < M.rho) (hγ : 0 ≤ γ)
    (hκ : 0 < κ) (mL mM mH cL cM cH : ℝ) (hmid : mM = (mL + mH) / 2)
    (hcL : cL ∈ Icc lowBound mL) (hcH : cH ∈ Icc lowBound mH)
    (hmaxM : IsMaxOn (fun c => v2_val M γ κ c mM) (Icc lowBound mM) cM) :
    (v2_val M γ κ cL mL + v2_val M γ κ cH mH) / 2 ≤ v2_val M γ κ cM mM := by
  have hc0 : (cL + cH) / 2 ∈ Icc lowBound mM := by
    constructor
    · have h1 := hcL.1
      have h2 := hcH.1
      linarith
    · have h1 := hcL.2
      have h2 := hcH.2
      rw [hmid]
      linarith
  have hposL : (0 : ℝ) < cL := lowBound_pos.trans_le hcL.1
  have hposH : (0 : ℝ) < cH := lowBound_pos.trans_le hcH.1
  have h1 : (v2_val M γ κ cL mL + v2_val M γ κ cH mH) / 2 ≤
      v2_val M γ κ ((cL + cH) / 2) mM := by
    rw [v2_val_eq_utility, v2_val_eq_utility, v2_val_eq_utility]
    have hu1 := utility_mid M hρ cL cH hposL hposH
    have hu2 := utility_mid M hρ (mL - cL + κ) (mH - cH + κ)
      (by have := hcL.2; linarith) (by have := hcH.2; linarith)
    have harg : mM - (cL + cH) / 2 + κ =
        ((mL - cL + κ) + (mH - cH + κ)) / 2 := by
      rw [hmid]
      ring
    rw [harg]
    have hu2' := mul_le_mul_of_nonneg_left hu2 hγ
    linarith
  exact le_trans h1 (isMaxOn_iff.mp hmaxM _ hc0)

theorem p2gridpt_strict (j : ℕ) : p2gridpt j < p2gridpt (j + 1) := by
  unfold p2gridpt
  push_cast
  have hstep : (0 : ℝ) < (5 - lowBound) / 499 := by norm_num [lowBound]
  nlinarith

theorem p2gridpt_succ_sub (j : ℕ) :
    p2gridpt (j + 1) - p2gridpt j = (5 - lowBound) / 499 := by
  unfold p2gridpt
  push_cast
  ring

theorem p2gridpt_mid (j : ℕ) :
    p2gridpt (j + 1) = (p2gridpt j + p2gridpt (j + 2)) / 2 := by
  unfold p2gridpt
  push_cast
  ring

theorem range_map_decomp2 (f : ℕ → ℝ) (n : ℕ) :
    (List.range (n + 2)).map f =
      f 0 :: f 1 :: (List.range n).map (fun j => f (2 + j)) := by
  rw [List.range_succ_eq_map, List.map_cons, List.map_map,
    List.range_succ_eq_map, List.map_cons, List.map_map]
  have hfe : ((f ∘ Nat.succ) ∘ Nat.succ) = (fun j => f (2 + j)) := by
    funext j
    simp only [Function.comp_apply]
    congr 1
    omega
  rw [hfe]
  rfl

theorem plconcave_range (G V : ℕ → ℝ) :
    ∀ n k : ℕ, (∀ j : ℕ, j < k + n + 1 → G j < G (j + 1)) →
    (∀ j : ℕ, j + 2 ≤ k + n + 1 →
      slopeOf (G (j+1)) (V (j+1)) (G (j+2)) (V (j+2)) ≤
        slopeOf (G j) (V j) (G (j+1)) (V (j+1))) →
    PLConcave (G k) (V k) (G (k+1)) (V (k+1))
      ((List.range n).map (fun j => (G (k + 2 + j), V (k + 2 + j)))) := by
  intro n
  induction n with
  | zero =>
    intro k hG _
    exact PLConcave.nil (hG k (by omega))
  | succ n ih =>
    intro k hG hS
    rw [List.range_succ_eq_map, List.map_cons, List.map_map]
    have hmap : ((fun j => (G (k + 2 + j), V (k + 2 + j))) ∘ Nat.succ) =
        (fun j => (G (k + 1 + 2 + j), V (k + 1 + 2 + j))) := by
      funext j
      simp only [Function.comp_apply]
      have h1 : k + 2 + Nat.succ j = k + 1 + 2 + j := by omega
      rw [h1]
    rw [hmap]
    exact PLConcave.cons (hG k (by omega)) (hS k (by omega))
      (ih (k + 1) (fun j hj => hG j (by omega)) (fun j hj => hS j (by omega)))

theorem linspace500_eq_map : linspace lowBound 5 500 =
    (List.range 500).map p2gridpt := by
  unfold linspace p2gridpt
  congr 1
  funext i
  norm_num

/-- The pipeline interpolator built from the period-2 output is concave on
all of `ℝ` whenever the optimizer returns within-bounds maximizers. -/
theorem pipelineW_concave (M : ConSavModel) (γ κ : ℝ) (hρ : 1 < M.rho)
    (hγ : 0 ≤ γ) (hκ : 0 < κ) (opt : Minimizer)
    (hmem : ∀ i : ℕ, i < 500 →
      opt (fun c2 => -(v2_val M γ κ c2 (p2gridpt i))) lowBound (p2gridpt i) ∈
        Icc lowBound (p2gridpt i))
    (hmax : ∀ i : ℕ, i < 500 →
      IsMaxOn (fun c2 => v2_val M γ κ c2 (p2gridpt i))
        (Icc lowBound (p2gridpt i))
        (opt (fun c2 => -(v2_val M γ κ c2 (p2gridpt i))) lowBound (p2gridpt i))) :
    ConcaveOn ℝ univ (interp (linspace lowBound 5 500)
      ((linspace lowBound 5 500).map (fun m2 =>
        v2_val M γ κ (opt (fun c2 => -(v2_val M γ κ c2 m2)) lowBound m2) m2))) := by
  have hV : ∀ j : ℕ, j + 2 ≤ 499 →
      slopeOf (p2gridpt (j+1))
        (v2_val M γ κ (opt (fun c2 => -(v2_val M γ κ c2 (p2gridpt (j+1))))
          lowBound (p2gridpt (j+1))) (p2gridpt (j+1)))
        (p2gridpt (j+2))
        (v2_val M γ κ (opt (fun c2 => -(v2_val M γ κ c2 (p2gridpt (j+2))))
          lowBound (p2gridpt (j+2))) (p2gridpt (j+2))) ≤
      slopeOf (p2gridpt j)
        (v2_val M γ κ (opt (fun c2 => -(v2_val M γ κ c2 (p2gridpt j)))
          lowBound (p2gridpt j)) (p2gridpt j))
        (p2gridpt (j+1))
        (v2_val M γ κ (opt (fun c2 => -(v2_val M γ κ c2 (p2gridpt (j+1))))
          lowBound (p2gridpt (j+1))) (p2gridpt (j+1))) := by
    intro j hj
    have hmidv := grid_val_mid M γ κ hρ hγ hκ (p2gridpt j) (p2gridpt (j+1))
      (p2gridpt (j+2)) _ _ _ (p2gridpt_mid j)
      (hmem j (by omega)) (hmem (j+2) (by omega)) (hmax (j+1) (by omega))
    unfold slopeOf
    rw [p2gridpt_succ_sub j]
    have hsub2 : p2gridpt (j + 2) - p2gridpt (j + 1) = (5 - lowBound) / 499 :=
      p2gridpt_succ_sub (j + 1)
    rw [hsub2]
    have hstep : (0 : ℝ) < (5 - lowBound) / 499 := by norm_num [lowBound]
    rw [div_le_div_iff_of_pos_right hstep]
    linarith
  have hls := linspace500_eq_map
  have hcomp : (linspace lowBound 5 500).map (fun m2 =>
      v2_val M γ κ (opt (fun c2 => -(v2_val M γ κ c2 m2)) lowBound m2) m2) =
      (List.range 500).map (fun i =>
        v2_val M γ κ (opt (fun c2 => -(v2_val M γ κ c2 (p2gridpt i)))
          lowBound (p2gridpt i)) (p2gridpt i)) := by
    rw [hls, List.map_map]
    rfl
  rw [hcomp, hls]
  have h500 : (500 : ℕ) = 498 + 2 := by norm_num
  rw [h500, range_map_decomp2 p2gridpt 498, range_map_decomp2 _ 498]
  show ConcaveOn ℝ univ (interpPts _ _ _ _ _)
  rw [List.zip_map']
  have hpl := plconcave_range p2gridpt
    (fun i => v2_val M γ κ (opt (fun c2 => -(v2_val M γ κ c2 (p2gridpt i)))
      lowBound (p2gridpt i)) (p2gridpt i)) 498 0
    (fun j _ => p2gridpt_strict j) (fun j hj => hV j (by omega))
  exact (plconcave_main _ _ _ _ _ hpl).1

/-! ### Tangent-line facts for CRRA at `rho = 5`, used to discharge
optimizer contracts on concrete instances -/

/-- CRRA utility at `rho = 5` lies below each of its tangent lines. -/
theorem u5_tangent (c q : ℝ) (hc : 0 < c) (hq : 0 < q) :
    u5 c ≤ u5 q + (q ^ (5 : ℕ))⁻¹ * (c - q) := by
  rw [u5_eq_ratfn c hc, u5_eq_ratfn q hq, ← sub_nonneg]
  have hc0 : c ≠ 0 := ne_of_gt hc
  have hq0 : q ≠ 0 := ne_of_gt hq
  have key : -((q ^ (4 : ℕ))⁻¹ / 4) + (q ^ (5 : ℕ))⁻¹ * (c - q) -
      (-((c ^ (4 : ℕ))⁻¹ / 4)) =
      (4 * c ^ 5 - 5 * c ^ 4 * q + q ^ 5) / (4 * c ^ 4 * q ^ 5) := by
    field_simp
    ring
  rw [key]
  apply div_nonneg
  · nlinarith [mul_nonneg (sq_nonneg (c - q))
      (show (0 : ℝ) ≤ 4 * c ^ 3 + 3 * c ^ 2 * q + 2 * c * q ^ 2 + q ^ 3 by
        positivity)]
  · positivity

/-- A stationary point of `u5(c) + (m - c) * K` on the feasible interval
is its maximizer. -/
theorem isMaxOn_u5_linear_interior (K q m : ℝ) (hql : lowBound ≤ q)
    (hqm : q ≤ m) (hK : (q ^ (5 : ℕ))⁻¹ = K) :
    IsMaxOn (fun c => u5 c + (m - c) * K) (Icc lowBound m) q := by
  rw [isMaxOn_iff]
  intro x hx
  have hx0 : (0 : ℝ) < x := lowBound_pos.trans_le hx.1
  have hq0 : (0 : ℝ) < q := lowBound_pos.trans_le hql
  have ht := u5_tangent x q hx0 hq0
  rw [hK] at ht
  nlinarith [ht]

/-- If the marginal utility at the upper bound still exceeds `K`, the upper
bound maximizes `u5(c) + (m - c) * K` on the feasible interval. -/
theorem isMaxOn_u5_linear_boundary (K m : ℝ) (hm : lowBound ≤ m)
    (hK : K ≤ (m ^ (5 : ℕ))⁻¹) :
    IsMaxOn (fun c => u5 c + (m - c) * K) (Icc lowBound m) m := by
  rw [isMaxOn_iff]
  intro x hx
  have hx0 : (0 : ℝ) < x := lowBound_pos.trans_le hx.1
  have hm0 : (0 : ℝ) < m := lowBound_pos.trans_le hm
  have ht := u5_tangent x m hx0 hm0
  have hxm : x - m ≤ 0 := by linarith [hx.2]
  have h2 : (m ^ (5 : ℕ))⁻¹ * (x - m) ≤ K * (x - m) :=
    mul_le_mul_of_nonpos_right hK hxm
  nlinarith [ht, h2]

/-! ### The deterministic-risk/no-risk period-1 objectives: concavity,
increasing differences, and monotone maximizers -/

/-- With a concave continuation interpolator, the deterministic-risk
period-1 objective is strictly concave in consumption. -/
theorem strictConcaveOn_p1obj (M : ConSavModel) (δ m1 : ℝ) (W : ℝ → ℝ)
    (hρ : 1 < M.rho) (hβ : 0 ≤ M.beta) (hp : 0 ≤ M.p) (hp1 : M.p ≤ 1)
    (hW : ConcaveOn ℝ univ W) :
    StrictConcaveOn ℝ (Icc lowBound m1) (fun c1 => v1_core M δ c1 m1 W) := by
  have huI : StrictConcaveOn ℝ (Icc lowBound m1) (utility_crra M) :=
    (strictConcaveOn_utility_crra M hρ).subset (icc_subset_Ioi m1)
      (convex_Icc _ _)
  have hcont : ConcaveOn ℝ (Icc lowBound m1) (fun c1 =>
      M.beta * (M.p * W ((1 + M.r) * (m1 - c1) + (1 + δ)) +
        (1 - M.p) * W ((1 + M.r) * (m1 - c1) + (1 - δ)))) := by
    refine ⟨convex_Icc _ _, ?_⟩
    intro x _ y _ a b ha hb hab
    simp only [smul_eq_mul]
    have hb1 : b = 1 - a := by linarith
    have hargH : (1 + M.r) * (m1 - (a * x + b * y)) + (1 + δ) =
        a * ((1 + M.r) * (m1 - x) + (1 + δ)) +
          b * ((1 + M.r) * (m1 - y) + (1 + δ)) := by
      rw [hb1]
      ring
    have hargL : (1 + M.r) * (m1 - (a * x + b * y)) + (1 - δ) =
        a * ((1 + M.r) * (m1 - x) + (1 - δ)) +
          b * ((1 + M.r) * (m1 - y) + (1 - δ)) := by
      rw [hb1]
      ring
    have hH := hW.2 (mem_univ ((1 + M.r) * (m1 - x) + (1 + δ)))
      (mem_univ ((1 + M.r) * (m1 - y) + (1 + δ))) ha hb hab
    have hL := hW.2 (mem_univ ((1 + M.r) * (m1 - x) + (1 - δ)))
      (mem_univ ((1 + M.r) * (m1 - y) + (1 - δ))) ha hb hab
    simp only [smul_eq_mul] at hH hL
    rw [hargH, hargL]
    have h1 := mul_le_mul_of_nonneg_left hH (mul_nonneg hβ hp)
    have h2 := mul_le_mul_of_nonneg_left hL
      (mul_nonneg hβ (by linarith : (0 : ℝ) ≤ 1 - M.p))
    nlinarith [h1, h2]
  have hfun : (fun c1 => v1_core M δ c1 m1 W) =
      utility_crra M + (fun c1 =>
        M.beta * (M.p * W ((1 + M.r) * (m1 - c1) + (1 + δ)) +
          (1 - M.p) * W ((1 + M.r) * (m1 - c1) + (1 - δ)))) := by
    funext c1
    rw [Pi.add_apply]
    rfl
  rw [hfun]
  exact huI.add_concaveOn hcont

/-- Weakly increasing differences of the deterministic-risk period-1
objective in `(c1, m1)` (for `r > -1` and a concave continuation). -/
theorem p1obj_wid (M : ConSavModel) (δ : ℝ) (W : ℝ → ℝ)
    (hβ : 0 ≤ M.beta) (hp : 0 ≤ M.p) (hp1 : M.p ≤ 1) (hr : -1 < M.r)
    (hW : ConcaveOn ℝ univ W) (m m' c c' : ℝ) (hmm : m ≤ m')
    (hc'c : c' ≤ c) :
    v1_core M δ c m W - v1_core M δ c' m W ≤
      v1_core M δ c m' W - v1_core M δ c' m' W := by
  have hb : (0 : ℝ) < 1 + M.r := by linarith
  have hIncH := concave_increments hW
    ((1 + M.r) * (m - c) + (1 + δ)) ((1 + M.r) * (m - c') + (1 + δ))
    ((1 + M.r) * (m' - m)) (by nlinarith) (by nlinarith)
    (mem_univ _) (mem_univ _) (mem_univ _) (mem_univ _)
  have hIncL := concave_increments hW
    ((1 + M.r) * (m - c) + (1 - δ)) ((1 + M.r) * (m - c') + (1 - δ))
    ((1 + M.r) * (m' - m)) (by nlinarith) (by nlinarith)
    (mem_univ _) (mem_univ _) (mem_univ _) (mem_univ _)
  have haH : (1 + M.r) * (m - c) + (1 + δ) + (1 + M.r) * (m' - m) =
      (1 + M.r) * (m' - c) + (1 + δ) := by ring
  have haH' : (1 + M.r) * (m - c') + (1 + δ) + (1 + M.r) * (m' - m) =
      (1 + M.r) * (m' - c') + (1 + δ) := by ring
  have haL : (1 + M.r) * (m - c) + (1 - δ) + (1 + M.r) * (m' - m) =
      (1 + M.r) * (m' - c) + (1 - δ) := by ring
  have haL' : (1 + M.r) * (m - c') + (1 - δ) + (1 + M.r) * (m' - m) =
      (1 + M.r) * (m' - c') + (1 - δ) := by ring
  rw [haH, haH'] at hIncH
  rw [haL, haL'] at hIncL
  have h1 := mul_le_mul_of_nonneg_left hIncH (mul_nonneg hβ hp)
  have h2 := mul_le_mul_of_nonneg_left hIncL
    (mul_nonneg hβ (by linarith : (0 : ℝ) ≤ 1 - M.p))
  unfold v1_core
  nlinarith [h1, h2]

/-- Point-level monotonicity of the deterministic-risk period-1
maximizer. -/
theorem p1_argmax_mono (M : ConSavModel) (δ : ℝ) (W : ℝ → ℝ)
    (hρ : 1 < M.rho) (hβ : 0 ≤ M.beta) (hp : 0 ≤ M.p) (hp1 : M.p ≤ 1)
    (hr : -1 < M.r) (hW : ConcaveOn ℝ univ W) (m m' c c' : ℝ)
    (hmm : m ≤ m') (hcm : c ∈ Icc lowBound m) (hcm' : c' ∈ Icc lowBound m')
    (hmaxm : IsMaxOn (fun c1 => v1_core M δ c1 m W) (Icc lowBound m) c)
    (hmaxm' : IsMaxOn (fun c1 => v1_core M δ c1 m' W) (Icc lowBound m') c') :
    c ≤ c' := by
  apply argmax_mono_of_wid (fun c1 mm => v1_core M δ c1 mm W) lowBound m m'
    _ _ hmm hcm hcm' hmaxm'
  · intro x hx hxc
    exact strictConcave_max_unique
      (strictConcaveOn_p1obj M δ m W hρ hβ hp hp1 hW) hmaxm hx hcm hxc
  · intro hlt
    exact p1obj_wid M δ W hβ hp hp1 hr hW m m' c c' hmm hlt.le

/-! ### A stochastic run with per-point draws need not be monotone -/

/-- Test model for stochastic non-monotonicity: `r = 0`, `beta = 1`,
`rho = 5`, no bequest strength, `sigma ~ Uniform(0, 31)`, full weight on
the high outcome. -/
def c7Model : ConSavModel := ⟨0, 1, 5, some 0, none, some 1, some 0, some 31, 1⟩

/-- An optimizer returning the exact maximizer of each stochastic
per-point objective of the `c7Model` run below. -/
def optC7 : Minimizer := fun _ _ hi =>
  if hi = p1sgridpt 200 then 1 / 2 else if hi ≤ 1 then hi else 1

/-- Draw stream: the usual draw is `0`; grid point 200 draws the extreme
`sigma = 31`. -/
def drawsC7 : ℕ → ℝ := fun n => if n = 200 then 31 else 0

theorem v1s_simple (M : ConSavModel) (hr : M.r = 0) (hb : M.beta = 1)
    (hp : M.p = 1) (hρ : M.rho = 5) (c1 m1 σ : ℝ) (W : ℝ → ℝ) :
    v1_func_stoch M c1 m1 σ W = u5 c1 + W ((m1 - c1) * (1 + σ)) := by
  simp [v1_func_stoch, utility_crra, hr, hb, hp, hρ, u5]

theorem p1sgridpt_strictMono {i j : ℕ} (h : i < j) :
    p1sgridpt i < p1sgridpt j := by
  unfold p1sgridpt
  have hc : (i : ℝ) < (j : ℝ) := Nat.cast_lt.mpr h
  have hstep : (0 : ℝ) < (5 - lowBound) / 299 := by norm_num [lowBound]
  nlinarith

theorem p1sgridpt_ne200 {i : ℕ} (h : i ≠ 200) :
    p1sgridpt i ≠ p1sgridpt 200 := by
  rcases lt_or_gt_of_ne h with h' | h'
  · exact ne_of_lt (p1sgridpt_strictMono h')
  · exact ne_of_gt (p1sgridpt_strictMono h')

theorem optC7_mem (f : ℝ → ℝ) (i : ℕ) :
    optC7 f lowBound (p1sgridpt i) ∈ Icc lowBound (p1sgridpt i) := by
  unfold optC7
  by_cases h200 : p1sgridpt i = p1sgridpt 200
  · rw [if_pos h200]
    constructor
    · norm_num [lowBound]
    · rw [h200]
      unfold p1sgridpt lowBound
      norm_num
  · rw [if_neg h200]
    by_cases h1 : p1sgridpt i ≤ 1
    · rw [if_pos h1]
      exact ⟨lowBound_le_p1sgridpt i, le_refl _⟩
    · rw [if_neg h1]
      constructor
      · norm_num [lowBound]
      · linarith [not_le.mp h1]

theorem c7_objective (i : ℕ) (c1 : ℝ) :
    v1_func_stoch c7Model c1 (p1sgridpt i) (drawsC7 i) (fun x => x) =
      u5 c1 + (p1sgridpt i - c1) * (1 + drawsC7 i) := by
  rw [v1s_simple c7Model rfl rfl rfl rfl]

theorem optC7_isMax (i : ℕ) :
    IsMaxOn (fun c1 =>
        v1_func_stoch c7Model c1 (p1sgridpt i) (drawsC7 i) (fun x => x))
      (Icc lowBound (p1sgridpt i))
      (optC7 (fun c1 =>
          -(v1_func_stoch c7Model c1 (p1sgridpt i) (drawsC7 i) (fun x => x)))
        lowBound (p1sgridpt i)) := by
  have hfeq : (fun c1 =>
      v1_func_stoch c7Model c1 (p1sgridpt i) (drawsC7 i) (fun x => x)) =
      (fun c1 => u5 c1 + (p1sgridpt i - c1) * (1 + drawsC7 i)) :=
    funext (c7_objective i)
  rw [hfeq]
  by_cases h200 : i = 200
  · subst h200
    have hopt : ∀ f : ℝ → ℝ, optC7 f lowBound (p1sgridpt 200) = 1 / 2 := by
      intro f
      unfold optC7
      rw [if_pos rfl]
    rw [hopt]
    have hd : drawsC7 200 = 31 := by
      unfold drawsC7
      rw [if_pos rfl]
    rw [hd]
    have h32 : (1 : ℝ) + 31 = 32 := by norm_num
    rw [h32]
    exact isMaxOn_u5_linear_interior 32 (1 / 2) (p1sgridpt 200)
      (by norm_num [lowBound]) (by unfold p1sgridpt lowBound; norm_num)
      (by norm_num)
  · have hd : drawsC7 i = 0 := by
      unfold drawsC7
      rw [if_neg h200]
    rw [hd]
    have h10 : (1 : ℝ) + 0 = 1 := by norm_num
    rw [h10]
    have hne : p1sgridpt i ≠ p1sgridpt 200 := p1sgridpt_ne200 h200
    by_cases h1 : p1sgridpt i ≤ 1
    · have hopt : ∀ f : ℝ → ℝ, optC7 f lowBound (p1sgridpt i) = p1sgridpt i := by
        intro f
        unfold optC7
        rw [if_neg hne, if_pos h1]
      rw [hopt]
      apply isMaxOn_u5_linear_boundary 1 (p1sgridpt i) (lowBound_le_p1sgridpt i)
      have hm0 : (0 : ℝ) < p1sgridpt i :=
        lowBound_pos.trans_le (lowBound_le_p1sgridpt i)
      have hpow : p1sgridpt i ^ (5 : ℕ) ≤ 1 := pow_le_one₀ hm0.le h1
      exact (one_le_inv₀ (pow_pos hm0 5)).2 hpow
    · have hopt : ∀ f : ℝ → ℝ, optC7 f lowBound (p1sgridpt i) = 1 := by
        intro f
        unfold optC7
        rw [if_neg hne, if_neg h1]
      rw [hopt]
      exact isMaxOn_u5_linear_interior 1 1 (p1sgridpt i)
        (by norm_num [lowBound]) (le_of_lt (not_le.mp h1)) (by norm_num)

theorem p1gridpt_mono {i j : ℕ} (hij : i ≤ j) : p1gridpt i ≤ p1gridpt j := by
  unfold p1gridpt
  have hc : (i : ℝ) ≤ (j : ℝ) := Nat.cast_le.mpr hij
  have hstep : (0 : ℝ) ≤ (4 - lowBound) / 99 := by norm_num [lowBound]
  have := mul_le_mul_of_nonneg_right hc hstep
  linarith

theorem p1ngridpt_mono {i j : ℕ} (hij : i ≤ j) : p1ngridpt i ≤ p1ngridpt j := by
  unfold p1ngridpt
  have hc : (i : ℝ) ≤ (j : ℝ) := Nat.cast_le.mpr hij
  have hstep : (0 : ℝ) ≤ (4 - lowBound) / 299 := by norm_num [lowBound]
  have := mul_le_mul_of_nonneg_right hc hstep
  linarith

/-- Counterexample for C7 as stated: the stochastic period-1 variant,
included in "each period-1 variant", need not return a monotone
consumption sequence, because every grid point optimizes against its own
fresh draw.  On `c7Model` with in-support draws, a within-bounds exact
maximizer, and the concave continuation `id`, the returned consumption at
grid index 100 is `1` while at index 200 it is `1/2`. -/
theorem monotonicity_counterexample :
    ¬ (∀ (M : ConSavModel) (opt : Minimizer) (W : ℝ → ℝ) (draws : ℕ → ℝ)
        (slo shi : ℝ),
        1 < M.rho → 0 ≤ M.beta → 0 ≤ M.p → M.p ≤ 1 → -1 < M.r →
        ConcaveOn ℝ univ W →
        M.sigma_low = some slo → M.sigma_high = some shi →
        (∀ n, draws n ∈ Icc slo shi) →
        (∀ i : ℕ, i < 300 →
          opt (fun c1 => -(v1_func_stoch M c1 (p1sgridpt i) (draws i) W))
            lowBound (p1sgridpt i) ∈ Icc lowBound (p1sgridpt i)) →
        (∀ i : ℕ, i < 300 →
          IsMaxOn (fun c1 => v1_func_stoch M c1 (p1sgridpt i) (draws i) W)
            (Icc lowBound (p1sgridpt i))
            (opt (fun c1 => -(v1_func_stoch M c1 (p1sgridpt i) (draws i) W))
              lowBound (p1sgridpt i))) →
        ∀ r1, solve_period_1_stoch M opt W (v1_func_stoch M) draws = some r1 →
          ∀ i j : ℕ, i ≤ j → j < 300 →
            r1.2.2.getD i 0 ≤ r1.2.2.getD j 0) := by
  intro h
  have hWid : ConcaveOn ℝ univ (fun x : ℝ => x) := by
    have haff := concaveOn_affine 1 0
    convert haff using 1
    funext x
    ring
  have hkey := h c7Model optC7 (fun x => x) drawsC7 0 31
    (by norm_num [c7Model]) (by norm_num [c7Model]) (by norm_num [c7Model])
    (by norm_num [c7Model]) (by norm_num [c7Model]) hWid rfl rfl
    (fun n => by
      unfold drawsC7
      split <;> norm_num)
    (fun i _ => optC7_mem _ i)
    (fun i _ => optC7_isMax i)
    (solve_period_1_stoch_body optC7 (fun x => x) (v1_func_stoch c7Model)
      drawsC7)
    (solve_period_1_stoch_some c7Model 0 31 rfl rfl optC7 (fun x => x)
      (v1_func_stoch c7Model) drawsC7)
    100 200 (by norm_num) (by norm_num)
  rw [sps_c1_getD optC7 (fun x => x) (v1_func_stoch c7Model) drawsC7 100
      (by norm_num),
    sps_c1_getD optC7 (fun x => x) (v1_func_stoch c7Model) drawsC7 200
      (by norm_num)] at hkey
  have h100 : ∀ f : ℝ → ℝ, optC7 f lowBound (p1sgridpt 100) = 1 := by
    intro f
    have hgt : ¬ (p1sgridpt 100 ≤ 1) := by
      unfold p1sgridpt lowBound
      norm_num
    unfold optC7
    rw [if_neg (p1sgridpt_ne200 (by norm_num)), if_neg hgt]
  have h200 : ∀ f : ℝ → ℝ, optC7 f lowBound (p1sgridpt 200) = 1 / 2 := by
    intro f
    unfold optC7
    rw [if_pos rfl]
  rw [h100, h200] at hkey
  norm_num at hkey

/-- C7 amended: under the optimizer contract (bounds membership and exact
maximization, the assumed behavior of the black-box SciPy minimizer) and
CRRA-sensible parameters (`rho > 1`, `gamma ≥ 0`, `kappa > 0`, `beta ≥ 0`,
`0 ≤ p ≤ 1`, `r > -1`): (a) the period-2 consumption sequence is
non-decreasing in wealth; (b) the pipeline interpolator of the period-2
values is concave; (c) the deterministic-risk and (d) the no-risk period-1
consumption sequences are non-decreasing in wealth for any concave
continuation — the stochastic variant is excluded, since its per-point
draws refute monotonicity. -/
theorem monotonicity_amended :
    (∀ (M : ConSavModel) (γ κ : ℝ) (opt : Minimizer),
      1 < M.rho → 0 ≤ γ → 0 < κ → M.gamma = some γ → M.kappa = some κ →
      (∀ i : ℕ, i < 500 →
        opt (fun c2 => -(v2_val M γ κ c2 (p2gridpt i))) lowBound (p2gridpt i) ∈
          Icc lowBound (p2gridpt i)) →
      (∀ i : ℕ, i < 500 →
        IsMaxOn (fun c2 => v2_val M γ κ c2 (p2gridpt i))
          (Icc lowBound (p2gridpt i))
          (opt (fun c2 => -(v2_val M γ κ c2 (p2gridpt i))) lowBound
            (p2gridpt i))) →
      ∃ mg vg cg, solve_period_2 M opt = some (mg, vg, cg) ∧
        ∀ i j : ℕ, i ≤ j → j < 500 → cg.getD i 0 ≤ cg.getD j 0) ∧
    (∀ (M : ConSavModel) (γ κ : ℝ) (opt : Minimizer),
      1 < M.rho → 0 ≤ γ → 0 < κ →
      (∀ i : ℕ, i < 500 →
        opt (fun c2 => -(v2_val M γ κ c2 (p2gridpt i))) lowBound (p2gridpt i) ∈
          Icc lowBound (p2gridpt i)) →
      (∀ i : ℕ, i < 500 →
        IsMaxOn (fun c2 => v2_val M γ κ c2 (p2gridpt i))
          (Icc lowBound (p2gridpt i))
          (opt (fun c2 => -(v2_val M γ κ c2 (p2gridpt i))) lowBound
            (p2gridpt i))) →
      ConcaveOn ℝ univ (interp (linspace lowBound 5 500)
        ((linspace lowBound 5 500).map (fun m2 =>
          v2_val M γ κ (opt (fun c2 => -(v2_val M γ κ c2 m2)) lowBound m2)
            m2)))) ∧
    (∀ (M : ConSavModel) (δ : ℝ) (W : ℝ → ℝ) (opt : Minimizer),
      1 < M.rho → 0 ≤ M.beta → 0 ≤ M.p → M.p ≤ 1 → -1 < M.r →
      ConcaveOn ℝ univ W →
      (∀ i : ℕ, i < 100 →
        opt (fun c1 => -(v1_core M δ c1 (p1gridpt i) W)) lowBound
          (p1gridpt i) ∈ Icc lowBound (p1gridpt i)) →
      (∀ i : ℕ, i < 100 →
        IsMaxOn (fun c1 => v1_core M δ c1 (p1gridpt i) W)
          (Icc lowBound (p1gridpt i))
          (opt (fun c1 => -(v1_core M δ c1 (p1gridpt i) W)) lowBound
            (p1gridpt i))) →
      ∀ i j : ℕ, i ≤ j → j < 100 →
        (solve_period_1 opt W (v1_core M δ)).2.2.getD i 0 ≤
          (solve_period_1 opt W (v1_core M δ)).2.2.getD j 0) ∧
    (∀ (M : ConSavModel) (W : ℝ → ℝ) (opt : Minimizer),
      1 < M.rho → 0 ≤ M.beta → 0 ≤ M.p → M.p ≤ 1 → -1 < M.r →
      ConcaveOn ℝ univ W →
      (∀ i : ℕ, i < 300 →
        opt (fun c1 => -(v1_func_no_risk M c1 (p1ngridpt i) W)) lowBound
          (p1ngridpt i) ∈ Icc lowBound (p1ngridpt i)) →
      (∀ i : ℕ, i < 300 →
        IsMaxOn (fun c1 => v1_func_no_risk M c1 (p1ngridpt i) W)
          (Icc lowBound (p1ngridpt i))
          (opt (fun c1 => -(v1_func_no_risk M c1 (p1ngridpt i) W)) lowBound
            (p1ngridpt i))) →
      ∀ i j : ℕ, i ≤ j → j < 300 →
        (solve_period_1_no_risk opt W (v1_func_no_risk M)).2.2.getD i 0 ≤
          (solve_period_1_no_risk opt W (v1_func_no_risk M)).2.2.getD j 0) := by
  refine ⟨?_, ?_, ?_, ?_⟩
  · intro M γ κ opt hρ hγ hκ hg hk hmem hmax
    refine ⟨linspace lowBound 5 500,
      (linspace lowBound 5 500).map (fun m2 =>
        v2_val M γ κ (opt (fun c2 => -(v2_val M γ κ c2 m2)) lowBound m2) m2),
      (linspace lowBound 5 500).map (fun m2 =>
        opt (fun c2 => -(v2_val M γ κ c2 m2)) lowBound m2),
      solve_period_2_eq M γ κ hg hk opt, ?_⟩
    intro i j hij hj
    have hi : i < 500 := lt_of_le_of_lt hij hj
    have hci : ((linspace lowBound 5 500).map (fun m2 =>
        opt (fun c2 => -(v2_val M γ κ c2 m2)) lowBound m2)).getD i 0 =
        opt (fun c2 => -(v2_val M γ κ c2 (p2gridpt i))) lowBound (p2gridpt i) := by
      rw [map_getD _ _ _ (by rw [linspace_length]; exact hi), p2grid_getD i hi]
    have hcj : ((linspace lowBound 5 500).map (fun m2 =>
        opt (fun c2 => -(v2_val M γ κ c2 m2)) lowBound m2)).getD j 0 =
        opt (fun c2 => -(v2_val M γ κ c2 (p2gridpt j))) lowBound (p2gridpt j) := by
      rw [map_getD _ _ _ (by rw [linspace_length]; exact hj), p2grid_getD j hj]
    rw [hci, hcj]
    exact period2_monotone_core M γ κ hρ hγ hκ opt hmem hmax i j hij hj
  · intro M γ κ opt hρ hγ hκ hmem hmax
    exact pipelineW_concave M γ κ hρ hγ hκ opt hmem hmax
  · intro M δ W opt hρ hβ hp hp1 hr hW hmem hmax i j hij hj
    have hi : i < 100 := lt_of_le_of_lt hij hj
    rw [sp1_c1_getD opt W (v1_core M δ) i hi,
      sp1_c1_getD opt W (v1_core M δ) j hj]
    exact p1_argmax_mono M δ W hρ hβ hp hp1 hr hW (p1gridpt i) (p1gridpt j)
      _ _ (p1gridpt_mono hij) (hmem i hi) (hmem j hj) (hmax i hi) (hmax j hj)
  · intro M W opt hρ hβ hp hp1 hr hW hmem hmax i j hij hj
    have hi : i < 300 := lt_of_le_of_lt hij hj
    rw [sp1n_c1_getD opt W (v1_func_no_risk M) i hi,
      sp1n_c1_getD opt W (v1_func_no_risk M) j hj]
    have hfe : ∀ m : ℝ, (fun c1 => v1_func_no_risk M c1 m W) =
        (fun c1 => v1_core M 0 c1 m W) :=
      fun m => funext fun c1 => (v1_core_zero_delta M c1 m W).symm
    have hfe' : ∀ m : ℝ, (fun c1 => -(v1_func_no_risk M c1 m W)) =
        (fun c1 => -(v1_core M 0 c1 m W)) :=
      fun m => funext fun c1 => by rw [v1_core_zero_delta]
    have hmemi := hmem i hi
    have hmemj := hmem j hj
    have hmaxi := hmax i hi
    have hmaxj := hmax j hj
    rw [hfe' (p1ngridpt i)] at hmemi
    rw [hfe' (p1ngridpt j)] at hmemj
    rw [hfe (p1ngridpt i), hfe' (p1ngridpt i)] at hmaxi
    rw [hfe (p1ngridpt j), hfe' (p1ngridpt j)] at hmaxj
    rw [hfe' (p1ngridpt i), hfe' (p1ngridpt j)]
    exact p1_argmax_mono M 0 W hρ hβ hp hp1 hr hW (p1ngridpt i) (p1ngridpt j)
      _ _ (p1ngridpt_mono hij) hmemi hmemj hmaxi hmaxj

/-- Witness for C7 (amended): period-2 monotonicity instantiated on the
zero-bequest-strength model with the exactly maximizing upper-bound
optimizer, at grid indices 0 ≤ 3. -/
theorem monotonicity_amended_witness :
    ∃ mg vg cg, solve_period_2 gammaZeroModel optTop = some (mg, vg, cg) ∧
      cg.getD 0 0 ≤ cg.getD 3 0 := by
  obtain ⟨mg, vg, cg, hsome, hmono⟩ := monotonicity_amended.1 gammaZeroModel
    0 1 optTop (by norm_num [gammaZeroModel]) (le_refl 0) (by norm_num) rfl rfl
    (fun i _ => ⟨lowBound_le_p2gridpt i, le_refl _⟩)
    (fun i _ => isMaxOn_v2val_gammaZero (p2gridpt i) (lowBound_le_p2gridpt i))
  exact ⟨mg, vg, cg, hsome, hmono 0 3 (by norm_num) (by norm_num)⟩

end
